import Mathlib

/- Formal model of the pathfinding backend in `src/backend/api_server.py`:
   a FastAPI service that computes a shortest path from a start point to the
   nearest of several safe zones while avoiding caller-supplied exclusion
   polygons.  The embedding is shallow: the networkx graph becomes a node
   list plus a weighted edge list, Python floats become exact rationals, the
   external geometry and projection primitives (pyproj, shapely) are
   abstracted as a record of pure functions, and the networkx shortest-path
   primitives are modelled as minimisation over simple paths, which is what
   Dijkstra computes on the non-negative weights the artifact guarantees. -/

namespace PathAPI

/-- Node identifiers of the road graph (networkx node keys). -/
abbrev Node := ℕ

/-- Metric-plane point (projected coordinates). -/
abbrev Pt := ℚ × ℚ

/-- The road graph, mirroring the pickled networkx graph `G_base`:
    `nodes` is the node set, `adj` the undirected weighted edge list. -/
structure Graph where
  nodes : List Node
  adj : List (Node × Node × ℚ)
deriving DecidableEq

/-- Python's `G_base.copy()` (api_server.py:155): a fresh graph object with
    the same nodes and edges. -/
def Graph.copy (g : Graph) : Graph := ⟨g.nodes, g.adj⟩

/-- Weight of the edge between `u` and `v`: undirected lookup in the edge
    list, first matching entry wins (networkx stores one weight per pair). -/
def weight (g : Graph) (u v : Node) : Option ℚ :=
  (g.adj.find? (fun e => (e.1 == u && e.2.1 == v) || (e.1 == v && e.2.1 == u))).map
    (fun e => e.2.2)

/-- Neighbours of `u`: the other endpoint of every incident edge. -/
def neighbors (g : Graph) (u : Node) : List Node :=
  g.adj.filterMap (fun e =>
    if e.1 = u then some e.2.1 else if e.2.1 = u then some e.1 else none)

/-- Well-formedness invariant of the base graph (spec section 3: every edge
    references existing nodes). -/
def WFgraph (g : Graph) : Prop := ∀ e ∈ g.adj, e.1 ∈ g.nodes ∧ e.2.1 ∈ g.nodes

instance (g : Graph) : Decidable (WFgraph g) :=
  decidable_of_iff (∀ e ∈ g.adj, e.1 ∈ g.nodes ∧ e.2.1 ∈ g.nodes) Iff.rfl

/-- External geometry and projection primitives used by the server: the
    pyproj transformers (api_server.py:51-52) and shapely's polygon
    operations.  `containsPt poly p` models `Polygon(poly).contains(Point p)`,
    which is strict-interior containment: `true` exactly when `p` lies
    strictly inside the ring `poly`; boundary and exterior points give
    `false`.  `centroid poly` models `Polygon(poly).centroid`. -/
structure Geo where
  toMetric : ℚ × ℚ → Pt
  toWgs84 : Pt → ℚ × ℚ
  containsPt : List Pt → Pt → Bool
  centroid : List Pt → Pt

/-- Request model `PointInput` (api_server.py:114-116). -/
structure PointInput where
  longitude : ℚ
  latitude : ℚ
deriving DecidableEq

/-- Request model `PolygonInput` (api_server.py:118-119). -/
structure PolygonInput where
  coordinates : List (ℚ × ℚ)
deriving DecidableEq

/-- Request model `PathRequest` (api_server.py:121-124); `polygons` are the
    exclusion zones, `safe_zones` the target zones. -/
structure PathRequest where
  start_point : PointInput
  safe_zones : List PolygonInput
  polygons : List PolygonInput
deriving DecidableEq

/-- Response model `PathResponse` (api_server.py:126-129); `path` is `none`
    when the Python field stays `None`. -/
structure PathResponse where
  path_found : Bool
  path : Option (List (ℚ × ℚ))
  message : String
deriving DecidableEq

/-- Squared Euclidean distance.  shapely's `Point.distance` is the Euclidean
    distance `√(distSq p q)`; `√` is strictly monotone, so comparing
    distances with `<` is the same as comparing the squares, which keeps the
    scan inside `ℚ`. -/
def distSq (p q : Pt) : ℚ := (p.1 - q.1) * (p.1 - q.1) + (p.2 - q.2) * (p.2 - q.2)

/-- One step of the scan in `get_nearest_node_api` (api_server.py:70-75):
    skip nodes absent from the (possibly pruned) graph, keep the pair
    `(nearest_node, min_dist)` with the strictly smaller distance. -/
def nearestStep (graph : Graph) (point : Pt) (acc : Option (Node × ℚ))
    (np : Node × Pt) : Option (Node × ℚ) :=
  if np.1 ∈ graph.nodes then
    match acc with
    | none => some (np.1, distSq point np.2)
    | some best =>
      if distSq point np.2 < best.2 then some (np.1, distSq point np.2) else some best
  else acc

/-- Model of `get_nearest_node_api` (api_server.py:65-76): linear scan over
    the coordinate index (a Python dict, i.e. an ordered association list),
    keeping the node present in `graph` with strictly smallest distance to
    `point`; starts from `min_dist = inf, nearest_node = None`, modelled by
    the `none` accumulator. -/
def get_nearest_node_api (graph : Graph) (point : Pt)
    (current_node_points : List (Node × Pt)) : Option Node :=
  (current_node_points.foldl (nearestStep graph point) none).map (fun best => best.1)

/-- Metric-plane vertex ring of an input polygon (api_server.py:165 and 201):
    every WGS84 vertex reprojected by the transformer. -/
def polyMetric (geo : Geo) (p : PolygonInput) : List Pt :=
  p.coordinates.map geo.toMetric

/-- Exclusion polygons surviving the `< 3 vertices` validity check
    (api_server.py:162-164). -/
def validPolys (polys : List PolygonInput) : List PolygonInput :=
  polys.filter (fun p => 3 ≤ p.coordinates.length)

/-- The set `nodes_to_remove` accumulated at api_server.py:156-169: a node of
    the (still unpruned) working copy is marked when some valid exclusion
    polygon strictly contains its coordinate.  Python accumulates a `set`
    polygon-by-polygon; only membership matters, so the model collects the
    same members node-by-node. -/
def nodes_to_remove (geo : Geo) (polys : List PolygonInput) (nps : List (Node × Pt))
    (g : Graph) : List Node :=
  (nps.filter (fun np =>
    decide (np.1 ∈ g.nodes) &&
      (validPolys polys).any (fun p => geo.containsPt (polyMetric geo p) np.2))).map
    (fun np => np.1)

/-- Model of `G_temp.remove_nodes_from(...)` (api_server.py:173): removing a
    node removes its incident edges implicitly. -/
def removeNodesFrom (g : Graph) (S : List Node) : Graph :=
  { nodes := g.nodes.filter (fun n => decide (n ∉ S)),
    adj := g.adj.filter (fun e => decide (e.1 ∉ S) && decide (e.2.1 ∉ S)) }

/-- Steps 2-3 of `find_path` (api_server.py:154-175): copy the base graph and
    prune the nodes covered by exclusion polygons, mirroring the two guards
    `if request.polygons:` and `if nodes_to_remove:`. -/
def buildWorkingGraph (geo : Geo) (polys : List PolygonInput) (nps : List (Node × Pt))
    (g : Graph) : Graph :=
  if polys = [] then Graph.copy g
  else
    let S := nodes_to_remove geo polys nps g
    if S = [] then Graph.copy g else removeNodesFrom (Graph.copy g) S

/-- All simple paths from `u` to `v` avoiding `visited`, by bounded
    depth-first enumeration; `fuel` bounds the number of nodes on a path. -/
def pathsAux (g : Graph) : ℕ → Node → Node → List Node → List (List Node)
  | 0, _, _, _ => []
  | fuel + 1, u, v, visited =>
    if u = v then [[u]]
    else (neighbors g u).flatMap (fun w =>
      if w ∈ u :: visited then []
      else (pathsAux g fuel w v (u :: visited)).map (fun p => u :: p))

/-- Every simple path from `u` to `v` in `g` (a path never repeats a node,
    so `g.nodes.length` nodes of fuel enumerate them all). -/
def simplePaths (g : Graph) (u v : Node) : List (List Node) :=
  pathsAux g g.nodes.length u v []

/-- Total weight of a node path (the sum Dijkstra reports for it). -/
def costOfPath (g : Graph) : List Node → ℚ
  | [] => 0
  | [_] => 0
  | a :: b :: rest => (weight g a b).getD 0 + costOfPath g (b :: rest)

/-- One step of a running minimum over rationals. -/
def minStep (acc : Option ℚ) (x : ℚ) : Option ℚ :=
  match acc with
  | none => some x
  | some m => some (min m x)

/-- Minimum of a list of rationals, `none` on the empty list. -/
def minQ? (l : List ℚ) : Option ℚ := l.foldl minStep none

/-- Model of `nx.has_path` (api_server.py:222): reachability in the working
    graph. -/
def hasPath (g : Graph) (u v : Node) : Bool := !(simplePaths g u v).isEmpty

/-- Model of `nx.shortest_path_length(..., weight='weight')`
    (api_server.py:223): the least total weight of a path from `u` to `v`.
    On the artifact's non-negative weights the minimum over simple paths is
    exactly Dijkstra's answer. -/
def spLength (g : Graph) (u v : Node) : Option ℚ :=
  minQ? ((simplePaths g u v).map (costOfPath g))

/-- Model of `nx.shortest_path(..., weight='weight')` (api_server.py:250): a
    node path attaining the shortest length; `none` models the
    `NetworkXNoPath` exception. -/
def spPath (g : Graph) (u v : Node) : Option (List Node) :=
  match spLength g u v with
  | none => none
  | some m => (simplePaths g u v).find? (fun p => decide (costOfPath g p = m))

/-- The two loop variables of the safe-zone scan (api_server.py:190-191);
    `shortest_path_len = none` models the initial `float('inf')` and
    `final_target_node = none` the initial `None`. -/
structure ZoneScan where
  shortest_path_len : Option ℚ
  final_target_node : Option Node
deriving DecidableEq

/-- Cost from the start node to candidate `t` as computed at
    api_server.py:218-226: `0` without running a search when the candidate
    equals the start node, the Dijkstra length when a path exists, and `none`
    (the `continue` branch) when the candidate is unreachable. -/
def candCost (g : Graph) (start_node t : Node) : Option ℚ :=
  if start_node = t then some 0
  else if hasPath g start_node t then spLength g start_node t else none

/-- One iteration of the safe-zone loop (api_server.py:194-243): skip
    degenerate zones, resolve the working-graph node nearest to the zone
    centroid, skip zones without a candidate or with an unreachable
    candidate, and keep the strictly best cost seen so far (`<` at
    api_server.py:231, so the first-encountered candidate wins ties). -/
def scanZone (geo : Geo) (nps : List (Node × Pt)) (g : Graph) (start_node : Node)
    (acc : ZoneScan) (zone : PolygonInput) : ZoneScan :=
  if zone.coordinates.length < 3 then acc
  else
    match get_nearest_node_api g (geo.centroid (polyMetric geo zone)) nps with
    | none => acc
    | some t =>
      match candCost g start_node t with
      | none => acc
      | some len =>
        match acc.shortest_path_len with
        | none => { shortest_path_len := some len, final_target_node := some t }
        | some best =>
          if len < best then { shortest_path_len := some len, final_target_node := some t }
          else acc

/-- The safe-zone loop projected onto candidate nodes: how the pair
    `(final_target_node, shortest_path_len)` evolves when one candidate
    target node is considered (api_server.py:218-235). -/
def bestStep (g : Graph) (start_node : Node) (acc : Option (Node × ℚ)) (t : Node) :
    Option (Node × ℚ) :=
  match candCost g start_node t with
  | none => acc
  | some len =>
    match acc with
    | none => some (t, len)
    | some best => if len < best.2 then some (t, len) else acc

/-- The per-zone candidate target nodes in zone order: for each valid safe
    zone, the working-graph node nearest to its centroid
    (api_server.py:196-213). -/
def zoneCandidates (geo : Geo) (nps : List (Node × Pt)) (g : Graph)
    (zones : List PolygonInput) : List Node :=
  zones.filterMap (fun z =>
    if z.coordinates.length < 3 then none
    else get_nearest_node_api g (geo.centroid (polyMetric geo z)) nps)

/-- Decimal rendering used where Python interpolates a number into a message
    string; exact rationals are rendered as numerator/denominator. -/
def fmtQ (q : ℚ) : String := toString q.num ++ "/" ++ toString q.den

/-- Message at api_server.py:181. -/
def startNotFoundMsg (lon lat : ℚ) : String :=
  "Could not find a starting node near " ++ fmtQ lon ++ ", " ++ fmtQ lat ++
    " in the accessible graph."

/-- Message at api_server.py:263; it interpolates the wall-clock calculation
    time and the node count. -/
def pathFoundMsg (elapsed : ℚ) (nNodes : ℕ) : String :=
  "Path found to nearest safe zone in " ++ fmtQ elapsed ++ " seconds. Nodes: " ++
    toString nNodes

/-- Message at api_server.py:269 (the `NetworkXNoPath` branch). -/
def internalNoPathMsg (s t : Node) : String :=
  "Internal Error: No path exists from start node " ++ toString s ++
    " to final target node " ++ toString t ++ ", even though length was calculated."

/-- Message at api_server.py:279; it interpolates the total number of
    supplied safe zones and the wall-clock time. -/
def noPathMsg (nZones : ℕ) (elapsed : ℚ) : String :=
  "Could not find a path from the start location to any of the provided safe zones\x27 accessible nodes. Searched " ++
    toString nZones ++ " zones. Time: " ++ fmtQ elapsed ++ "s"

/-- Body of the `try:` block of `find_path` (api_server.py:149-281).
    `elapsed` is the wall-clock figure `time.perf_counter() - request_start_time`
    interpolated into the success and no-path messages; it is an input of the
    model because it is not a function of the request.  `Except.error (c, d)`
    models `raise HTTPException(status_code=c, detail=d)`. -/
def find_path_inner (geo : Geo) (G_base : Graph) (nps : List (Node × Pt))
    (req : PathRequest) (elapsed : ℚ) : Except (ℕ × String) PathResponse :=
  let startM := geo.toMetric (req.start_point.longitude, req.start_point.latitude)
  let G_temp := buildWorkingGraph geo req.polygons nps G_base
  match get_nearest_node_api G_temp startM nps with
  | none =>
    .ok { path_found := false, path := none,
          message := startNotFoundMsg req.start_point.longitude req.start_point.latitude }
  | some start_node =>
    if req.safe_zones = [] then .error (400, "At least one safe zone must be provided.")
    else
      let scan := req.safe_zones.foldl (scanZone geo nps G_temp start_node) ⟨none, none⟩
      match scan.final_target_node with
      | none =>
        .ok { path_found := false, path := none,
              message := noPathMsg req.safe_zones.length elapsed }
      | some final_target_node =>
        match spPath G_temp start_node final_target_node with
        | none =>
          .ok { path_found := false, path := none,
                message := internalNoPathMsg start_node final_target_node }
        | some path_nodes =>
          let path_coords := path_nodes.filterMap (fun n => (nps.lookup n).map geo.toWgs84)
          .ok { path_found := true, path := some path_coords,
                message := pathFoundMsg elapsed path_coords.length }

/-- Model of the `/find_path` endpoint including the blanket
    `except Exception` handler (api_server.py:283-287): every exception
    raised inside the `try:` block — including the `HTTPException(400)` for
    an empty safe-zone list, since `HTTPException` subclasses `Exception` —
    is caught and re-raised as HTTP 500 with the caught exception rendered
    into the detail string. -/
def find_path (geo : Geo) (G_base : Graph) (nps : List (Node × Pt))
    (req : PathRequest) (elapsed : ℚ) : Except (ℕ × String) PathResponse :=
  match find_path_inner geo G_base nps req elapsed with
  | .ok r => .ok r
  | .error e => .error (500, "Internal server error: " ++ e.2)

/-- The module-level state read by `find_path`: the shared base graph and the
    node-coordinate index (api_server.py:24-25). -/
structure ServerState where
  G_base : Graph
  node_points_base : List (Node × Pt)
deriving DecidableEq

/-- Stateful view of one request: the handler reads the module state, derives
    the request-local working copy via `G_base.copy()` (api_server.py:155) —
    every node removal then targets that copy — and never assigns to the
    module-level variables, so the state visible after the request is
    returned alongside the response. -/
def find_path_st (geo : Geo) (st : ServerState) (req : PathRequest) (elapsed : ℚ) :
    ServerState × Except (ℕ × String) PathResponse :=
  let resp := find_path geo st.G_base st.node_points_base req elapsed
  ({ G_base := st.G_base, node_points_base := st.node_points_base }, resp)

/-- A `find?` is unchanged by a `filter` that keeps everything the search
    predicate accepts. -/
theorem find?_filter_of_imp {α : Type} (l : List α) (p q : α → Bool)
    (h : ∀ x, p x = true → q x = true) : (l.filter q).find? p = l.find? p := by
  induction l with
  | nil => rfl
  | cons a l ih =>
    cases hq : q a with
    | false =>
      have hp : p a = false := by
        cases hpa : p a with
        | false => rfl
        | true => exact absurd (h a hpa) (by simp [hq])
      simp [List.filter_cons, hq, List.find?_cons, hp, ih]
    | true =>
      cases hpa : p a with
      | false => simp [List.filter_cons, hq, List.find?_cons, hpa, ih]
      | true => simp [List.filter_cons, hq, List.find?_cons, hpa]

theorem minStep_fold_none_iff (l : List ℚ) :
    ∀ acc, l.foldl minStep acc = none ↔ acc = none ∧ l = [] := by
  induction l with
  | nil => intro acc; simp
  | cons x l ih =>
    intro acc
    have hstep : ∃ y, minStep acc x = some y := by
      cases acc <;> exact ⟨_, rfl⟩
    obtain ⟨y, hy⟩ := hstep
    simp only [List.foldl_cons, hy, ih]
    simp

theorem minStep_fold_spec (l : List ℚ) :
    ∀ acc m, l.foldl minStep acc = some m →
      (acc = some m ∨ m ∈ l) ∧ (∀ y, acc = some y → m ≤ y) ∧ (∀ x ∈ l, m ≤ x) := by
  induction l with
  | nil =>
    intro acc m h
    simp only [List.foldl_nil] at h
    refine ⟨Or.inl h, fun y hy => ?_, by simp⟩
    rw [h] at hy
    exact le_of_eq (Option.some.inj hy)
  | cons x l ih =>
    intro acc m h
    rw [List.foldl_cons] at h
    obtain ⟨hsrc, hacc, hmem⟩ := ih (minStep acc x) m h
    cases acc with
    | none =>
      have hme : minStep none x = some x := rfl
      rw [hme] at hsrc hacc
      have hx : m ≤ x := hacc x rfl
      refine ⟨?_, ?_, ?_⟩
      · rcases hsrc with h1 | h1
        · have hmx : x = m := Option.some.inj h1
          exact Or.inr (by rw [← hmx]; exact List.mem_cons_self x l)
        · exact Or.inr (List.mem_cons_of_mem _ h1)
      · intro y hy
        simp at hy
      · intro z hz
        rcases List.mem_cons.mp hz with rfl | h1
        · exact hx
        · exact hmem z h1
    | some a =>
      have hme : minStep (some a) x = some (min a x) := rfl
      rw [hme] at hsrc hacc
      have hmin : m ≤ min a x := hacc (min a x) rfl
      have hma : m ≤ a := le_trans hmin (min_le_left a x)
      have hmx : m ≤ x := le_trans hmin (min_le_right a x)
      refine ⟨?_, fun y hy => ?_, fun z hz => ?_⟩
      · rcases hsrc with h1 | h1
        · have hm : min a x = m := Option.some.inj h1
          rcases min_choice a x with h2 | h2
          · exact Or.inl (by rw [← hm, h2])
          · exact Or.inr (by rw [← hm, h2]; exact List.mem_cons_self x l)
        · exact Or.inr (List.mem_cons_of_mem _ h1)
      · have : a = y := Option.some.inj hy
        rw [← this]; exact hma
      · rcases List.mem_cons.mp hz with rfl | h1
        · exact hmx
        · exact hmem z h1

theorem minQ?_none_iff (l : List ℚ) : minQ? l = none ↔ l = [] := by
  unfold minQ?
  rw [minStep_fold_none_iff]
  simp

theorem minQ?_spec (l : List ℚ) (m : ℚ) (h : minQ? l = some m) :
    m ∈ l ∧ ∀ x ∈ l, m ≤ x := by
  obtain ⟨hsrc, _, hmem⟩ := minStep_fold_spec l none m h
  exact ⟨hsrc.resolve_left (by simp), hmem⟩

theorem nearestFold_none_iff (graph : Graph) (point : Pt) (l : List (Node × Pt)) :
    ∀ acc, l.foldl (nearestStep graph point) acc = none ↔
      acc = none ∧ ∀ np ∈ l, np.1 ∉ graph.nodes := by
  induction l with
  | nil => intro acc; simp
  | cons np l ih =>
    intro acc
    by_cases hmem : np.1 ∈ graph.nodes
    · have hstep : ∃ y, nearestStep graph point acc np = some y := by
        unfold nearestStep
        rw [if_pos hmem]
        cases acc with
        | none => exact ⟨_, rfl⟩
        | some best =>
          show ∃ y,
            (if distSq point np.2 < best.2 then some (np.1, distSq point np.2)
              else some best) = some y
          by_cases hlt : distSq point np.2 < best.2
          · rw [if_pos hlt]; exact ⟨_, rfl⟩
          · rw [if_neg hlt]; exact ⟨_, rfl⟩
      obtain ⟨y, hy⟩ := hstep
      rw [List.foldl_cons, hy, ih]
      simp [hmem]
    · have hy : nearestStep graph point acc np = acc := by
        unfold nearestStep; rw [if_neg hmem]
      rw [List.foldl_cons, hy, ih]
      simp [hmem]

theorem nearestFold_spec (graph : Graph) (point : Pt) (l : List (Node × Pt)) :
    ∀ acc n d, l.foldl (nearestStep graph point) acc = some (n, d) →
      (acc = some (n, d) ∨ (n ∈ graph.nodes ∧ ∃ pt, (n, pt) ∈ l ∧ d = distSq point pt)) ∧
      (∀ a, acc = some a → d ≤ a.2) ∧
      (∀ m ptm, (m, ptm) ∈ l → m ∈ graph.nodes → d ≤ distSq point ptm) := by
  induction l with
  | nil =>
    intro acc n d h
    simp only [List.foldl_nil] at h
    refine ⟨Or.inl h, ?_, ?_⟩
    · intro a ha
      rw [h] at ha
      exact le_of_eq (congrArg Prod.snd (Option.some.inj ha))
    · simp
  | cons np l ih =>
    intro acc n d h
    rw [List.foldl_cons] at h
    obtain ⟨hsrc, hacc, hmem⟩ := ih (nearestStep graph point acc np) n d h
    have wk : (n ∈ graph.nodes ∧ ∃ pt, (n, pt) ∈ l ∧ d = distSq point pt) →
        n ∈ graph.nodes ∧ ∃ pt, (n, pt) ∈ np :: l ∧ d = distSq point pt := by
      intro h1
      exact ⟨h1.1, h1.2.choose, List.mem_cons_of_mem _ h1.2.choose_spec.1,
        h1.2.choose_spec.2⟩
    by_cases hnp : np.1 ∈ graph.nodes
    · cases acc with
      | none =>
        have hstep : nearestStep graph point none np = some (np.1, distSq point np.2) := by
          unfold nearestStep; rw [if_pos hnp]
        rw [hstep] at hsrc hacc
        have hdnp : d ≤ distSq point np.2 := hacc _ rfl
        refine ⟨?_, ?_, ?_⟩
        · rcases hsrc with h1 | h1
          · have h2 := Option.some.inj h1
            injection h2 with h2a h2b
            subst h2a
            subst h2b
            exact Or.inr ⟨hnp, np.2, List.mem_cons_self _ _, rfl⟩
          · exact Or.inr (wk h1)
        · intro a ha
          simp at ha
        · intro m ptm hm hmg
          rcases List.mem_cons.mp hm with h2 | h2
          · have h3 : ptm = np.2 := congrArg Prod.snd h2
            rw [h3]
            exact hdnp
          · exact hmem m ptm h2 hmg
      | some best =>
        by_cases hlt : distSq point np.2 < best.2
        · have hstep : nearestStep graph point (some best) np =
              some (np.1, distSq point np.2) := by
            unfold nearestStep
            rw [if_pos hnp]
            show (if distSq point np.2 < best.2 then some (np.1, distSq point np.2)
              else some best) = _
            rw [if_pos hlt]
          rw [hstep] at hsrc hacc
          have hdnp : d ≤ distSq point np.2 := hacc _ rfl
          refine ⟨?_, ?_, ?_⟩
          · rcases hsrc with h1 | h1
            · have h2 := Option.some.inj h1
              injection h2 with h2a h2b
              subst h2a
              subst h2b
              exact Or.inr ⟨hnp, np.2, List.mem_cons_self _ _, rfl⟩
            · exact Or.inr (wk h1)
          · intro a ha
            rw [← Option.some.inj ha]
            exact le_trans hdnp (le_of_lt hlt)
          · intro m ptm hm hmg
            rcases List.mem_cons.mp hm with h2 | h2
            · have h3 : ptm = np.2 := congrArg Prod.snd h2
              rw [h3]
              exact hdnp
            · exact hmem m ptm h2 hmg
        · have hstep : nearestStep graph point (some best) np = some best := by
            unfold nearestStep
            rw [if_pos hnp]
            show (if distSq point np.2 < best.2 then some (np.1, distSq point np.2)
              else some best) = _
            rw [if_neg hlt]
          rw [hstep] at hsrc hacc
          have hdbest : d ≤ best.2 := hacc _ rfl
          refine ⟨?_, ?_, ?_⟩
          · rcases hsrc with h1 | h1
            · exact Or.inl h1
            · exact Or.inr (wk h1)
          · intro a ha
            rw [← Option.some.inj ha]
            exact hdbest
          · intro m ptm hm hmg
            rcases List.mem_cons.mp hm with h2 | h2
            · have h3 : ptm = np.2 := congrArg Prod.snd h2
              rw [h3]
              exact le_trans hdbest (not_lt.mp hlt)
            · exact hmem m ptm h2 hmg
    · have hstep : nearestStep graph point acc np = acc := by
        unfold nearestStep; rw [if_neg hnp]
      rw [hstep] at hsrc hacc
      refine ⟨?_, hacc, ?_⟩
      · rcases hsrc with h1 | h1
        · exact Or.inl h1
        · exact Or.inr (wk h1)
      · intro m ptm hm hmg
        rcases List.mem_cons.mp hm with h2 | h2
        · have h3 : m = np.1 := congrArg Prod.fst h2
          rw [← h3] at hnp
          exact absurd hmg hnp
        · exact hmem m ptm h2 hmg

/-- The resolver only answers with nodes of the supplied view. -/
theorem get_nearest_mem (graph : Graph) (point : Pt) (nps : List (Node × Pt)) (n : Node)
    (h : get_nearest_node_api graph point nps = some n) : n ∈ graph.nodes := by
  unfold get_nearest_node_api at h
  obtain ⟨⟨n', d⟩, hfold, hn⟩ := Option.map_eq_some'.mp h
  rcases (nearestFold_spec graph point nps none n' d hfold).1 with h1 | h1
  · cases h1
  · have hn2 : n' = n := hn
    rw [← hn2]
    exact h1.1

/-- The resolver answers `none` exactly when no indexed node lies in the
    view. -/
theorem get_nearest_none_iff (graph : Graph) (point : Pt) (nps : List (Node × Pt)) :
    get_nearest_node_api graph point nps = none ↔ ∀ np ∈ nps, np.1 ∉ graph.nodes := by
  unfold get_nearest_node_api
  rw [Option.map_eq_none', nearestFold_none_iff]
  simp

/-- Concrete sample world shared by witnesses and counterexamples: the
    spec's scenario graph, a unit-weight square cycle A-B-C-D-A with
    coordinates on the unit square. -/
def sqGraph : Graph := ⟨[0, 1, 2, 3], [(0, 1, 1), (1, 2, 1), (2, 3, 1), (3, 0, 1)]⟩

/-- Coordinate index of `sqGraph`. -/
def sqNps : List (Node × Pt) := [(0, (0, 0)), (1, (1, 0)), (2, (1, 1)), (3, (0, 1))]

/-- Concrete geometry instance for witnesses and counterexamples: identity
    projection, vertex-membership containment, first-vertex centroid.  The
    claim theorems are universally quantified over `Geo`, so any
    instantiation may exercise them. -/
def geoSample : Geo :=
  { toMetric := fun p => p, toWgs84 := fun p => p,
    containsPt := fun poly pt => poly.any (fun q => decide (q = pt)),
    centroid := fun poly => poly.headD (0, 0) }

/-- C4: on any view whose nodes are all covered by the coordinate index, the
    nearest-node resolver returns `none` exactly when the view has no node,
    always answers with a node of the view, and the answer minimises the
    Euclidean distance from the query point among the view's nodes
    (api_server.py:65-76). -/
theorem C4_nearest_node_resolver (graph : Graph) (point : Pt) (nps : List (Node × Pt))
    (hcover : ∀ n ∈ graph.nodes, ∃ pt, (n, pt) ∈ nps) :
    (get_nearest_node_api graph point nps = none ↔ graph.nodes = []) ∧
    (∀ n, get_nearest_node_api graph point nps = some n →
      n ∈ graph.nodes ∧
      ∃ ptn, (n, ptn) ∈ nps ∧
        ∀ m ptm, (m, ptm) ∈ nps → m ∈ graph.nodes →
          Real.sqrt ((distSq point ptn : ℚ) : ℝ) ≤ Real.sqrt ((distSq point ptm : ℚ) : ℝ)) := by
  constructor
  · rw [get_nearest_none_iff]
    constructor
    · intro h
      by_contra hne
      obtain ⟨n, hn⟩ := List.exists_mem_of_ne_nil _ hne
      obtain ⟨pt, hpt⟩ := hcover n hn
      exact h (n, pt) hpt hn
    · intro h np _
      rw [h]
      simp
  · intro n hn
    refine ⟨get_nearest_mem graph point nps n hn, ?_⟩
    unfold get_nearest_node_api at hn
    obtain ⟨⟨n', d⟩, hfold, hn'⟩ := Option.map_eq_some'.mp hn
    have hn2 : n' = n := hn'
    subst hn2
    obtain ⟨hsrc, _, hmin⟩ := nearestFold_spec graph point nps none n' d hfold
    rcases hsrc with h1 | h1
    · cases h1
    · obtain ⟨_, pt, hpt, hd⟩ := h1
      refine ⟨pt, hpt, ?_⟩
      intro m ptm hm hmg
      have hle := hmin m ptm hm hmg
      rw [← hd]
      exact Real.sqrt_le_sqrt (by exact_mod_cast hle)

/-- C4 witness: the resolver theorem applied to the square sample graph at a
    concrete query point. -/
theorem C4_nearest_node_resolver_witness :
    (∀ n ∈ sqGraph.nodes, ∃ pt, (n, pt) ∈ sqNps) ∧
    ((get_nearest_node_api sqGraph ((2 : ℚ), (2 : ℚ)) sqNps = none ↔ sqGraph.nodes = []) ∧
     (∀ n, get_nearest_node_api sqGraph ((2 : ℚ), (2 : ℚ)) sqNps = some n →
       n ∈ sqGraph.nodes ∧
       ∃ ptn, (n, ptn) ∈ sqNps ∧
         ∀ m ptm, (m, ptm) ∈ sqNps → m ∈ sqGraph.nodes →
           Real.sqrt ((distSq (2, 2) ptn : ℚ) : ℝ) ≤ Real.sqrt ((distSq (2, 2) ptm : ℚ) : ℝ))) := by
  have hcover : ∀ n ∈ sqGraph.nodes, ∃ pt, (n, pt) ∈ sqNps := by
    intro n hn
    simp only [sqGraph, List.mem_cons, List.not_mem_nil, or_false] at hn
    rcases hn with rfl | rfl | rfl | rfl
    · exact ⟨(0, 0), by decide⟩
    · exact ⟨(1, 0), by decide⟩
    · exact ⟨(1, 1), by decide⟩
    · exact ⟨(0, 1), by decide⟩
  exact ⟨hcover, C4_nearest_node_resolver sqGraph (2, 2) sqNps hcover⟩

/-- A path in `g` from `u` to `v`: a nonempty node sequence starting at `u`,
    ending at `v`, all nodes in the graph, consecutive nodes joined by an
    edge. -/
def IsPath (g : Graph) (u v : Node) (p : List Node) : Prop :=
  p.head? = some u ∧ p.getLast? = some v ∧ (∀ n ∈ p, n ∈ g.nodes) ∧
    List.Chain' (fun a b => weight g a b ≠ none) p

theorem weight_ne_none_iff (g : Graph) (u v : Node) :
    weight g u v ≠ none ↔
      ∃ e ∈ g.adj, (e.1 = u ∧ e.2.1 = v) ∨ (e.1 = v ∧ e.2.1 = u) := by
  unfold weight
  constructor
  · intro h
    rcases hf : g.adj.find? (fun e => (e.1 == u && e.2.1 == v) || (e.1 == v && e.2.1 == u))
      with _ | e
    · rw [hf] at h
      simp at h
    · have hmem := List.mem_of_find?_eq_some hf
      have hpred := List.find?_some hf
      refine ⟨e, hmem, ?_⟩
      simpa using hpred
  · rintro ⟨e, he, hpred⟩ hnone
    rw [Option.map_eq_none'] at hnone
    have h2 := List.find?_eq_none.mp hnone e he
    simp only [Bool.or_eq_true, Bool.and_eq_true, beq_iff_eq] at h2
    exact h2 hpred

theorem mem_neighbors_iff (g : Graph) (u w : Node) :
    w ∈ neighbors g u ↔ ∃ e ∈ g.adj, (e.1 = u ∧ e.2.1 = w) ∨ (e.1 = w ∧ e.2.1 = u) := by
  unfold neighbors
  rw [List.mem_filterMap]
  constructor
  · rintro ⟨e, he, hsome⟩
    refine ⟨e, he, ?_⟩
    by_cases h1 : e.1 = u
    · rw [if_pos h1] at hsome
      exact Or.inl ⟨h1, Option.some.inj hsome⟩
    · rw [if_neg h1] at hsome
      by_cases h2 : e.2.1 = u
      · rw [if_pos h2] at hsome
        exact Or.inr ⟨Option.some.inj hsome, h2⟩
      · rw [if_neg h2] at hsome
        cases hsome
  · rintro ⟨e, he, hed | hed⟩
    · exact ⟨e, he, by rw [if_pos hed.1, hed.2]⟩
    · refine ⟨e, he, ?_⟩
      by_cases h1 : e.1 = u
      · rw [if_pos h1]
        have h3 : e.2.1 = w := by rw [hed.2, ← h1, hed.1]
        exact congrArg some h3
      · rw [if_neg h1, if_pos hed.2]
        exact congrArg some hed.1

theorem mem_neighbors_iff_weight (g : Graph) (u w : Node) :
    w ∈ neighbors g u ↔ weight g u w ≠ none := by
  rw [mem_neighbors_iff, ← weight_ne_none_iff]

theorem mem_nodes_of_mem_neighbors (g : Graph) (hWF : WFgraph g) (u w : Node)
    (h : w ∈ neighbors g u) : w ∈ g.nodes := by
  obtain ⟨e, he, hed | hed⟩ := (mem_neighbors_iff g u w).mp h
  · rw [← hed.2]
    exact (hWF e he).2
  · rw [← hed.1]
    exact (hWF e he).1

theorem mem_of_getLast?_eq_some {l : List Node} {a : Node} (h : l.getLast? = some a) :
    a ∈ l := by
  induction l with
  | nil => simp at h
  | cons x t ih =>
    cases t with
    | nil =>
      have : x = a := by simpa using h
      simp [this]
    | cons y t2 =>
      rw [List.getLast?_cons_cons] at h
      exact List.mem_cons_of_mem _ (ih h)

theorem pathsAux_sound (g : Graph) (hWF : WFgraph g) :
    ∀ fuel u v visited p, u ∈ g.nodes → u ∉ visited →
      p ∈ pathsAux g fuel u v visited →
      IsPath g u v p ∧ p.Nodup ∧ ∀ n ∈ p, n ∉ visited := by
  intro fuel
  induction fuel with
  | zero =>
    intro u v visited p _ _ hp
    simp [pathsAux] at hp
  | succ fuel ih =>
    intro u v visited p hu hvis hp
    rw [pathsAux] at hp
    by_cases huv : u = v
    · rw [if_pos huv] at hp
      have hp2 : p = [u] := by simpa using hp
      subst hp2
      refine ⟨⟨rfl, by simp [huv], by simp [hu], by simp⟩, by simp, ?_⟩
      intro n hn
      have : n = u := by simpa using hn
      rw [this]
      exact hvis
    · rw [if_neg huv, List.mem_flatMap] at hp
      obtain ⟨w, hw, hp2⟩ := hp
      by_cases hwv : w ∈ u :: visited
      · rw [if_pos hwv] at hp2
        simp at hp2
      · rw [if_neg hwv, List.mem_map] at hp2
        obtain ⟨q, hq, hpq⟩ := hp2
        have hwnode : w ∈ g.nodes := mem_nodes_of_mem_neighbors g hWF u w hw
        obtain ⟨⟨hhead, hlast, hmem, hchain⟩, hnodup, hdisj⟩ :=
          ih w v (u :: visited) q hwnode hwv hq
        cases q with
        | nil => cases hhead
        | cons a t =>
          have haw : a = w := by simpa using hhead
          subst haw
          subst hpq
          have hedge : weight g u a ≠ none := (mem_neighbors_iff_weight g u a).mp hw
          have hunott : u ∉ a :: t := by
            intro hin
            exact (hdisj u hin) (List.mem_cons_self u visited)
          refine ⟨⟨rfl, ?_, ?_, ?_⟩, ?_, ?_⟩
          · rw [List.getLast?_cons_cons]
            exact hlast
          · intro n hn
            rcases List.mem_cons.mp hn with rfl | hn2
            · exact hu
            · exact hmem n hn2
          · exact List.chain'_cons.mpr ⟨hedge, hchain⟩
          · exact List.nodup_cons.mpr ⟨hunott, hnodup⟩
          · intro n hn
            rcases List.mem_cons.mp hn with rfl | hn2
            · exact hvis
            · intro hnv
              exact (hdisj n hn2) (List.mem_cons_of_mem _ hnv)

theorem pathsAux_complete (g : Graph) :
    ∀ fuel p u v visited, IsPath g u v p → p.Nodup → (∀ n ∈ p, n ∉ visited) →
      p.length ≤ fuel → p ∈ pathsAux g fuel u v visited := by
  intro fuel
  induction fuel with
  | zero =>
    intro p u v visited hpath _ _ hlen
    obtain ⟨hhead, _, _, _⟩ := hpath
    cases p with
    | nil => exact absurd hhead (by simp)
    | cons a t => simp at hlen
  | succ fuel ih =>
    intro p u v visited hpath hnodup hdisj hlen
    obtain ⟨hhead, hlast, hmem, hchain⟩ := hpath
    cases p with
    | nil => exact absurd hhead (by simp)
    | cons a t =>
      have ha : a = u := by simpa using hhead
      subst ha
      cases t with
      | nil =>
        have huv : a = v := by simpa using hlast
        subst huv
        simp [pathsAux]
      | cons b t2 =>
        have hlast2 : (b :: t2).getLast? = some v := by
          rw [← List.getLast?_cons_cons]
          exact hlast
        have hvmem : v ∈ b :: t2 := mem_of_getLast?_eq_some hlast2
        have hanotbt : a ∉ b :: t2 := (List.nodup_cons.mp hnodup).1
        have huv : a ≠ v := by
          intro h
          rw [← h] at hvmem
          exact hanotbt hvmem
        rw [pathsAux, if_neg huv, List.mem_flatMap]
        have hedge : weight g a b ≠ none := (List.chain'_cons.mp hchain).1
        refine ⟨b, (mem_neighbors_iff_weight g a b).mpr hedge, ?_⟩
        have hbnot : b ∉ a :: visited := by
          intro hb
          rcases List.mem_cons.mp hb with h1 | h1
          · exact hanotbt (by rw [h1]; exact List.mem_cons_self a t2)
          · exact hdisj b (by simp) h1
        rw [if_neg hbnot, List.mem_map]
        refine ⟨b :: t2, ?_, rfl⟩
        apply ih
        · exact ⟨rfl, hlast2, fun n hn => hmem n (List.mem_cons_of_mem _ hn),
            (List.chain'_cons.mp hchain).2⟩
        · exact (List.nodup_cons.mp hnodup).2
        · intro n hn hnv
          rcases List.mem_cons.mp hnv with h1 | h1
          · rw [h1] at hn
            exact hanotbt hn
          · exact hdisj n (List.mem_cons_of_mem _ hn) h1
        · have : (b :: t2).length + 1 ≤ fuel + 1 := by simpa using hlen
          exact Nat.succ_le_succ_iff.mp this

theorem length_le_of_nodup_subset {p l : List Node} (hnodup : p.Nodup)
    (hsub : ∀ n ∈ p, n ∈ l) : p.length ≤ l.length := by
  have h1 : p.toFinset.card = p.length := List.toFinset_card_of_nodup hnodup
  have h2 : p.toFinset ⊆ l.toFinset := by
    intro x hx
    rw [List.mem_toFinset] at hx ⊢
    exact hsub x hx
  calc p.length = p.toFinset.card := h1.symm
    _ ≤ l.toFinset.card := Finset.card_le_card h2
    _ ≤ l.length := l.toFinset_card_le

theorem simplePaths_sound (g : Graph) (hWF : WFgraph g) (u v : Node) (p : List Node)
    (hu : u ∈ g.nodes) (hp : p ∈ simplePaths g u v) : IsPath g u v p ∧ p.Nodup := by
  obtain ⟨h1, h2, _⟩ := pathsAux_sound g hWF g.nodes.length u v [] p hu (by simp) hp
  exact ⟨h1, h2⟩

theorem simplePaths_complete (g : Graph) (u v : Node) (p : List Node)
    (hpath : IsPath g u v p) (hnodup : p.Nodup) : p ∈ simplePaths g u v :=
  pathsAux_complete g g.nodes.length p u v [] hpath hnodup (by simp)
    (length_le_of_nodup_subset hnodup hpath.2.2.1)

theorem simplePaths_self (g : Graph) (u : Node) (hu : u ∈ g.nodes) :
    simplePaths g u u = [[u]] := by
  unfold simplePaths
  have hne : g.nodes.length ≠ 0 := by
    intro h
    rw [List.length_eq_zero] at h
    rw [h] at hu
    simp at hu
  obtain ⟨k, hk⟩ := Nat.exists_eq_succ_of_ne_zero hne
  rw [hk]
  simp [pathsAux]

theorem hasPath_iff (g : Graph) (u v : Node) :
    hasPath g u v = true ↔ simplePaths g u v ≠ [] := by
  cases h : simplePaths g u v with
  | nil => simp [hasPath, h]
  | cons a t => simp [hasPath, h]

theorem spLength_isSome_of_ne_nil (g : Graph) (u v : Node)
    (hne : simplePaths g u v ≠ []) : ∃ m, spLength g u v = some m := by
  unfold spLength
  rcases h : minQ? ((simplePaths g u v).map (costOfPath g)) with _ | m
  · rw [minQ?_none_iff, List.map_eq_nil_iff] at h
    exact absurd h hne
  · exact ⟨m, rfl⟩

theorem spLength_none_of_nil (g : Graph) (u v : Node)
    (hnil : simplePaths g u v = []) : spLength g u v = none := by
  unfold spLength
  rw [hnil]
  rfl

theorem spLength_spec (g : Graph) (u v : Node) (m : ℚ) (h : spLength g u v = some m) :
    (∃ p ∈ simplePaths g u v, costOfPath g p = m) ∧
      ∀ p ∈ simplePaths g u v, m ≤ costOfPath g p := by
  unfold spLength at h
  obtain ⟨hmem, hmin⟩ := minQ?_spec _ _ h
  constructor
  · obtain ⟨p, hp, hpc⟩ := List.mem_map.mp hmem
    exact ⟨p, hp, hpc⟩
  · intro p hp
    exact hmin _ (List.mem_map_of_mem _ hp)

theorem spPath_of_spLength (g : Graph) (u v : Node) (m : ℚ)
    (h : spLength g u v = some m) :
    ∃ p, spPath g u v = some p ∧ p ∈ simplePaths g u v ∧ costOfPath g p = m := by
  obtain ⟨⟨p0, hp0, hc0⟩, _⟩ := spLength_spec g u v m h
  unfold spPath
  rw [h]
  rcases hf : (simplePaths g u v).find? (fun p => decide (costOfPath g p = m)) with _ | p
  · rw [List.find?_eq_none] at hf
    exact absurd (by simpa using hc0) (by simpa using hf p0 hp0)
  · have hmem := List.mem_of_find?_eq_some hf
    have hpred := List.find?_some hf
    exact ⟨p, hf, hmem, by simpa using hpred⟩

theorem candCost_none_iff (g : Graph) (s t : Node) :
    candCost g s t = none ↔ s ≠ t ∧ hasPath g s t = false := by
  unfold candCost
  by_cases h1 : s = t
  · simp [h1]
  · rw [if_neg h1]
    by_cases h2 : hasPath g s t = true
    · rw [if_pos h2]
      constructor
      · intro h3
        obtain ⟨m, hm⟩ := spLength_isSome_of_ne_nil g s t ((hasPath_iff g s t).mp h2)
        rw [hm] at h3
        cases h3
      · intro h3
        rw [h2] at h3
        cases h3.2
    · rw [if_neg h2]
      constructor
      · intro _
        refine ⟨h1, ?_⟩
        cases hb : hasPath g s t with
        | false => rfl
        | true => exact absurd hb h2
      · intro _
        rfl

theorem candCost_some_spPath (g : Graph) (s t : Node) (c : ℚ) (hs : s ∈ g.nodes)
    (h : candCost g s t = some c) : ∃ p, spPath g s t = some p := by
  unfold candCost at h
  by_cases h1 : s = t
  · subst h1
    have hlen : spLength g s s = some 0 := by
      unfold spLength
      rw [simplePaths_self g s hs]
      rfl
    obtain ⟨p, hp, _⟩ := spPath_of_spLength g s s 0 hlen
    exact ⟨p, hp⟩
  · rw [if_neg h1] at h
    by_cases h2 : hasPath g s t = true
    · obtain ⟨m, hm⟩ := spLength_isSome_of_ne_nil g s t ((hasPath_iff g s t).mp h2)
      obtain ⟨p, hp, _⟩ := spPath_of_spLength g s t m hm
      exact ⟨p, hp⟩
    · rw [if_neg h2] at h
      cases h

theorem mem_nodes_to_remove (geo : Geo) (polys : List PolygonInput)
    (nps : List (Node × Pt)) (g : Graph) (n : Node) :
    n ∈ nodes_to_remove geo polys nps g ↔
      ∃ pt, (n, pt) ∈ nps ∧ n ∈ g.nodes ∧
        ∃ p ∈ validPolys polys, geo.containsPt (polyMetric geo p) pt = true := by
  unfold nodes_to_remove
  rw [List.mem_map]
  constructor
  · rintro ⟨np, hnp, hfst⟩
    rw [List.mem_filter] at hnp
    obtain ⟨hmem, hcond⟩ := hnp
    simp only [Bool.and_eq_true, decide_eq_true_eq, List.any_eq_true] at hcond
    refine ⟨np.2, ?_, ?_, ?_⟩
    · rw [← hfst]
      exact hmem
    · rw [← hfst]
      exact hcond.1
    · exact hcond.2
  · rintro ⟨pt, hmem, hnode, p, hp, hcont⟩
    refine ⟨(n, pt), ?_, rfl⟩
    rw [List.mem_filter]
    refine ⟨hmem, ?_⟩
    simp only [Bool.and_eq_true, decide_eq_true_eq, List.any_eq_true]
    exact ⟨hnode, p, hp, hcont⟩

theorem nodes_to_remove_nil (geo : Geo) (nps : List (Node × Pt)) (g : Graph) :
    nodes_to_remove geo [] nps g = [] := by
  unfold nodes_to_remove validPolys
  simp

theorem mem_buildWorkingGraph (geo : Geo) (polys : List PolygonInput)
    (nps : List (Node × Pt)) (g : Graph) (n : Node) :
    n ∈ (buildWorkingGraph geo polys nps g).nodes ↔
      n ∈ g.nodes ∧ n ∉ nodes_to_remove geo polys nps g := by
  unfold buildWorkingGraph
  by_cases h1 : polys = []
  · rw [if_pos h1, h1, nodes_to_remove_nil]
    simp [Graph.copy]
  · rw [if_neg h1]
    show n ∈ (if nodes_to_remove geo polys nps g = [] then Graph.copy g
      else removeNodesFrom (Graph.copy g) (nodes_to_remove geo polys nps g)).nodes ↔ _
    by_cases h2 : nodes_to_remove geo polys nps g = []
    · rw [if_pos h2, h2]
      simp [Graph.copy]
    · rw [if_neg h2]
      show n ∈ g.nodes.filter (fun n => decide (n ∉ nodes_to_remove geo polys nps g)) ↔ _
      rw [List.mem_filter]
      simp

theorem weight_removeNodesFrom (g : Graph) (S : List Node) (a b : Node)
    (ha : a ∉ S) (hb : b ∉ S) :
    weight (removeNodesFrom g S) a b = weight g a b := by
  have himp : ∀ e : Node × Node × ℚ,
      ((e.1 == a && e.2.1 == b) || (e.1 == b && e.2.1 == a)) = true →
      (decide (e.1 ∉ S) && decide (e.2.1 ∉ S)) = true := by
    intro e he
    simp only [Bool.or_eq_true, Bool.and_eq_true, beq_iff_eq] at he
    simp only [Bool.and_eq_true, decide_eq_true_eq]
    rcases he with ⟨h1, h2⟩ | ⟨h1, h2⟩
    · exact ⟨by rw [h1]; exact ha, by rw [h2]; exact hb⟩
    · exact ⟨by rw [h1]; exact hb, by rw [h2]; exact ha⟩
  unfold weight removeNodesFrom
  rw [find?_filter_of_imp _ _ _ himp]

theorem weight_buildWorkingGraph (geo : Geo) (polys : List PolygonInput)
    (nps : List (Node × Pt)) (g : Graph) (a b : Node)
    (ha : a ∈ (buildWorkingGraph geo polys nps g).nodes)
    (hb : b ∈ (buildWorkingGraph geo polys nps g).nodes) :
    weight (buildWorkingGraph geo polys nps g) a b = weight g a b := by
  have ha2 := (mem_buildWorkingGraph geo polys nps g a).mp ha
  have hb2 := (mem_buildWorkingGraph geo polys nps g b).mp hb
  unfold buildWorkingGraph
  by_cases h1 : polys = []
  · rw [if_pos h1]
    rfl
  · rw [if_neg h1]
    show weight (if nodes_to_remove geo polys nps g = [] then Graph.copy g
      else removeNodesFrom (Graph.copy g) (nodes_to_remove geo polys nps g)) a b = weight g a b
    by_cases h2 : nodes_to_remove geo polys nps g = []
    · rw [if_pos h2]
      rfl
    · rw [if_neg h2]
      exact weight_removeNodesFrom (Graph.copy g) _ a b ha2.2 hb2.2

theorem WF_removeNodesFrom (g : Graph) (S : List Node) (hWF : WFgraph g) :
    WFgraph (removeNodesFrom g S) := by
  intro e he
  have he2 : e ∈ g.adj.filter (fun e => decide (e.1 ∉ S) && decide (e.2.1 ∉ S)) := he
  rw [List.mem_filter] at he2
  obtain ⟨hmem, hcond⟩ := he2
  simp only [Bool.and_eq_true, decide_eq_true_eq] at hcond
  have h2 := hWF e hmem
  constructor
  · show e.1 ∈ g.nodes.filter (fun n => decide (n ∉ S))
    rw [List.mem_filter]
    exact ⟨h2.1, by simp [hcond.1]⟩
  · show e.2.1 ∈ g.nodes.filter (fun n => decide (n ∉ S))
    rw [List.mem_filter]
    exact ⟨h2.2, by simp [hcond.2]⟩

theorem WF_buildWorkingGraph (geo : Geo) (polys : List PolygonInput)
    (nps : List (Node × Pt)) (g : Graph) (hWF : WFgraph g) :
    WFgraph (buildWorkingGraph geo polys nps g) := by
  unfold buildWorkingGraph
  by_cases h1 : polys = []
  · rw [if_pos h1]
    exact hWF
  · rw [if_neg h1]
    show WFgraph (if nodes_to_remove geo polys nps g = [] then Graph.copy g
      else removeNodesFrom (Graph.copy g) (nodes_to_remove geo polys nps g))
    by_cases h2 : nodes_to_remove geo polys nps g = []
    · rw [if_pos h2]
      exact hWF
    · rw [if_neg h2]
      exact WF_removeNodesFrom (Graph.copy g) _ hWF

theorem chain'_congr_mem {R S : Node → Node → Prop} :
    ∀ p : List Node, (∀ a ∈ p, ∀ b ∈ p, R a b → S a b) → p.Chain' R → p.Chain' S := by
  intro p
  induction p with
  | nil =>
    intro _ _
    exact List.chain'_nil
  | cons a t ih =>
    intro h hc
    cases t with
    | nil => simp
    | cons b t2 =>
      rw [List.chain'_cons] at hc ⊢
      refine ⟨h a (by simp) b (by simp) hc.1, ?_⟩
      exact ih (fun x hx y hy =>
        h x (List.mem_cons_of_mem _ hx) y (List.mem_cons_of_mem _ hy)) hc.2

theorem costOfPath_congr (g1 g2 : Graph) :
    ∀ p : List Node, (∀ a ∈ p, ∀ b ∈ p, weight g1 a b = weight g2 a b) →
      costOfPath g1 p = costOfPath g2 p := by
  intro p
  induction p with
  | nil => intro _; rfl
  | cons a t ih =>
    intro h
    cases t with
    | nil => rfl
    | cons b t2 =>
      show (weight g1 a b).getD 0 + costOfPath g1 (b :: t2) =
        (weight g2 a b).getD 0 + costOfPath g2 (b :: t2)
      rw [h a (by simp) b (by simp),
        ih (fun x hx y hy => h x (List.mem_cons_of_mem _ hx) y (List.mem_cons_of_mem _ hy))]

/-- Monotonicity engine: if `g2` is a sub-view of `g1` (fewer nodes, same
    weights on surviving pairs), every shortest-path cost in `g2` is matched
    or beaten in `g1`. -/
theorem spLength_mono (g1 g2 : Graph) (u v : Node)
    (hWF2 : WFgraph g2) (hu : u ∈ g2.nodes)
    (hnodes : ∀ n ∈ g2.nodes, n ∈ g1.nodes)
    (hweight : ∀ a ∈ g2.nodes, ∀ b ∈ g2.nodes, weight g1 a b = weight g2 a b)
    (c2 : ℚ) (hc2 : spLength g2 u v = some c2) :
    ∃ c1, spLength g1 u v = some c1 ∧ c1 ≤ c2 := by
  obtain ⟨⟨p, hp, hcost⟩, _⟩ := spLength_spec g2 u v c2 hc2
  obtain ⟨hpath, hnodup⟩ := simplePaths_sound g2 hWF2 u v p hu hp
  have hmem1 : ∀ n ∈ p, n ∈ g1.nodes := fun n hn => hnodes n (hpath.2.2.1 n hn)
  have hwp : ∀ a ∈ p, ∀ b ∈ p, weight g1 a b = weight g2 a b :=
    fun a ha b hb => hweight a (hpath.2.2.1 a ha) b (hpath.2.2.1 b hb)
  have hpath1 : IsPath g1 u v p := by
    refine ⟨hpath.1, hpath.2.1, hmem1, ?_⟩
    refine chain'_congr_mem p ?_ hpath.2.2.2
    intro a ha b hb hR
    rw [hwp a ha b hb]
    exact hR
  have hp1 : p ∈ simplePaths g1 u v := simplePaths_complete g1 u v p hpath1 hnodup
  obtain ⟨c1, hc1⟩ := spLength_isSome_of_ne_nil g1 u v (List.ne_nil_of_mem hp1)
  refine ⟨c1, hc1, ?_⟩
  have hbound := (spLength_spec g1 u v c1 hc1).2 p hp1
  rw [costOfPath_congr g1 g2 p hwp, hcost] at hbound
  exact hbound

/-- C5: adding exclusion zones never decreases the shortest-path cost
    between two nodes that both survive the larger zone set and are still
    connected there (api_server.py:155-173 and 222-223). -/
theorem C5_exclusion_monotonicity (geo : Geo) (G_base : Graph) (nps : List (Node × Pt))
    (Z1 Z2 : List PolygonInput) (u v : Node) (c2 : ℚ)
    (hWF : WFgraph G_base)
    (hsub : ∀ p ∈ Z1, p ∈ Z2)
    (hu : u ∈ (buildWorkingGraph geo Z2 nps G_base).nodes)
    (hv : v ∈ (buildWorkingGraph geo Z2 nps G_base).nodes)
    (hc2 : spLength (buildWorkingGraph geo Z2 nps G_base) u v = some c2) :
    ∃ c1, spLength (buildWorkingGraph geo Z1 nps G_base) u v = some c1 ∧ c1 ≤ c2 := by
  have hvalid : ∀ p ∈ validPolys Z1, p ∈ validPolys Z2 := by
    intro p hp
    simp only [validPolys, List.mem_filter] at hp ⊢
    exact ⟨hsub p hp.1, hp.2⟩
  have hrm : ∀ n, n ∈ nodes_to_remove geo Z1 nps G_base →
      n ∈ nodes_to_remove geo Z2 nps G_base := by
    intro n hn
    rw [mem_nodes_to_remove] at hn ⊢
    obtain ⟨pt, h1, h2, p, hp, h3⟩ := hn
    exact ⟨pt, h1, h2, p, hvalid p hp, h3⟩
  have hnodes : ∀ n ∈ (buildWorkingGraph geo Z2 nps G_base).nodes,
      n ∈ (buildWorkingGraph geo Z1 nps G_base).nodes := by
    intro n hn
    rw [mem_buildWorkingGraph] at hn ⊢
    exact ⟨hn.1, fun h => hn.2 (hrm n h)⟩
  have hweight : ∀ a ∈ (buildWorkingGraph geo Z2 nps G_base).nodes,
      ∀ b ∈ (buildWorkingGraph geo Z2 nps G_base).nodes,
      weight (buildWorkingGraph geo Z1 nps G_base) a b =
        weight (buildWorkingGraph geo Z2 nps G_base) a b := by
    intro a ha b hb
    rw [weight_buildWorkingGraph geo Z1 nps G_base a b (hnodes a ha) (hnodes b hb),
      weight_buildWorkingGraph geo Z2 nps G_base a b ha hb]
  exact spLength_mono (buildWorkingGraph geo Z1 nps G_base)
    (buildWorkingGraph geo Z2 nps G_base) u v
    (WF_buildWorkingGraph geo Z2 nps G_base hWF) hu hnodes hweight c2 hc2

/-- Exclusion zone used by witnesses: under `geoSample` it strictly contains
    exactly the coordinate (1, 0) of node B of the square. -/
def zoneB : PolygonInput := ⟨[(1, 0), (5, 5), (6, 6)]⟩

unseal Rat.add Rat.sub Rat.mul in
/-- C5 witness: the monotonicity theorem applied to the square graph, with
    the empty zone set against the single zone that removes node B. -/
theorem C5_exclusion_monotonicity_witness :
    (WFgraph sqGraph ∧ (∀ p ∈ ([] : List PolygonInput), p ∈ [zoneB]) ∧
      (0 : Node) ∈ (buildWorkingGraph geoSample [zoneB] sqNps sqGraph).nodes ∧
      (2 : Node) ∈ (buildWorkingGraph geoSample [zoneB] sqNps sqGraph).nodes ∧
      spLength (buildWorkingGraph geoSample [zoneB] sqNps sqGraph) 0 2 = some 2) ∧
    (∃ c1, spLength (buildWorkingGraph geoSample [] sqNps sqGraph) 0 2 = some c1 ∧
      c1 ≤ 2) := by
  refine ⟨⟨by decide, by simp, by decide, by decide, by decide⟩, ?_⟩
  exact C5_exclusion_monotonicity geoSample sqGraph sqNps [] [zoneB] 0 2 2
    (by decide) (by simp) (by decide) (by decide) (by decide)

/-- C2: a base-graph node is removed by the request's working-graph pruning
    exactly when its indexed coordinate lies strictly inside at least one
    valid (at least 3 vertices) reprojected exclusion polygon; a node whose
    coordinate no valid polygon strictly contains — on a boundary or outside
    every polygon, where shapely's `contains` answers false — keeps its
    base-graph membership (api_server.py:158-175). -/
theorem C2_exclusion_pruning (geo : Geo) (req : PathRequest) (nps : List (Node × Pt))
    (G_base : Graph) (n : Node) :
    (n ∈ G_base.nodes ∧ n ∉ (buildWorkingGraph geo req.polygons nps G_base).nodes ↔
      n ∈ G_base.nodes ∧ ∃ pt, (n, pt) ∈ nps ∧
        ∃ p ∈ req.polygons, 3 ≤ p.coordinates.length ∧
          geo.containsPt (polyMetric geo p) pt = true) ∧
    ((∀ pt, (n, pt) ∈ nps → ∀ p ∈ req.polygons, 3 ≤ p.coordinates.length →
        geo.containsPt (polyMetric geo p) pt = false) →
      (n ∈ (buildWorkingGraph geo req.polygons nps G_base).nodes ↔ n ∈ G_base.nodes)) := by
  have hR := mem_nodes_to_remove geo req.polygons nps G_base n
  have hW := mem_buildWorkingGraph geo req.polygons nps G_base n
  constructor
  · constructor
    · rintro ⟨hbase, hnw⟩
      refine ⟨hbase, ?_⟩
      have hnR : n ∈ nodes_to_remove geo req.polygons nps G_base := by
        by_contra h
        exact hnw (hW.mpr ⟨hbase, h⟩)
      obtain ⟨pt, h1, _, p, hp, h3⟩ := hR.mp hnR
      simp only [validPolys, List.mem_filter, decide_eq_true_eq] at hp
      exact ⟨pt, h1, p, hp.1, hp.2, h3⟩
    · rintro ⟨hbase, pt, h1, p, hp, hlen, h3⟩
      refine ⟨hbase, fun hw => ?_⟩
      have hpv : p ∈ validPolys req.polygons := by
        simp only [validPolys, List.mem_filter, decide_eq_true_eq]
        exact ⟨hp, hlen⟩
      exact (hW.mp hw).2 (hR.mpr ⟨pt, h1, hbase, p, hpv, h3⟩)
  · intro hno
    rw [hW]
    constructor
    · intro h
      exact h.1
    · intro hbase
      refine ⟨hbase, fun hnR => ?_⟩
      obtain ⟨pt, h1, _, p, hp, h3⟩ := hR.mp hnR
      simp only [validPolys, List.mem_filter, decide_eq_true_eq] at hp
      have hfalse := hno pt h1 p hp.1 hp.2
      rw [hfalse] at h3
      cases h3

/-- C2 witness: the pruning characterisation evaluated on the square graph
    with the zone covering node B. -/
theorem C2_exclusion_pruning_witness :
    ((1 : Node) ∈ sqGraph.nodes ∧
        (1 : Node) ∉ (buildWorkingGraph geoSample
          (PathRequest.mk ⟨0, 0⟩ [] [zoneB]).polygons sqNps sqGraph).nodes ↔
      (1 : Node) ∈ sqGraph.nodes ∧ ∃ pt, ((1 : Node), pt) ∈ sqNps ∧
        ∃ p ∈ (PathRequest.mk ⟨0, 0⟩ [] [zoneB]).polygons, 3 ≤ p.coordinates.length ∧
          geoSample.containsPt (polyMetric geoSample p) pt = true) ∧
    ((∀ pt, ((1 : Node), pt) ∈ sqNps →
        ∀ p ∈ (PathRequest.mk ⟨0, 0⟩ [] [zoneB]).polygons, 3 ≤ p.coordinates.length →
        geoSample.containsPt (polyMetric geoSample p) pt = false) →
      ((1 : Node) ∈ (buildWorkingGraph geoSample
          (PathRequest.mk ⟨0, 0⟩ [] [zoneB]).polygons sqNps sqGraph).nodes ↔
        (1 : Node) ∈ sqGraph.nodes)) :=
  C2_exclusion_pruning geoSample (PathRequest.mk ⟨0, 0⟩ [] [zoneB]) sqNps sqGraph 1

/-- C7: with an empty exclusion-polygon list the working graph is the base
    graph itself — same node count, same edge count, empty removal set
    (api_server.py:155-175, the `if request.polygons:` guard). -/
theorem C7_no_polygons_identity (geo : Geo) (req : PathRequest) (nps : List (Node × Pt))
    (G_base : Graph) (hreq : req.polygons = []) :
    buildWorkingGraph geo req.polygons nps G_base = G_base ∧
    (buildWorkingGraph geo req.polygons nps G_base).nodes.length = G_base.nodes.length ∧
    (buildWorkingGraph geo req.polygons nps G_base).adj.length = G_base.adj.length ∧
    nodes_to_remove geo req.polygons nps G_base = [] := by
  rw [hreq]
  exact ⟨rfl, rfl, rfl, nodes_to_remove_nil geo nps G_base⟩

/-- C7 witness: the identity applied to a request without exclusion
    polygons on the square graph. -/
theorem C7_no_polygons_identity_witness :
    (PathRequest.mk ⟨0, 0⟩ [zoneB] []).polygons = [] ∧
    (buildWorkingGraph geoSample (PathRequest.mk ⟨0, 0⟩ [zoneB] []).polygons sqNps sqGraph
        = sqGraph ∧
      (buildWorkingGraph geoSample (PathRequest.mk ⟨0, 0⟩ [zoneB] []).polygons sqNps
        sqGraph).nodes.length = sqGraph.nodes.length ∧
      (buildWorkingGraph geoSample (PathRequest.mk ⟨0, 0⟩ [zoneB] []).polygons sqNps
        sqGraph).adj.length = sqGraph.adj.length ∧
      nodes_to_remove geoSample (PathRequest.mk ⟨0, 0⟩ [zoneB] []).polygons sqNps sqGraph
        = []) :=
  ⟨rfl, C7_no_polygons_identity geoSample (PathRequest.mk ⟨0, 0⟩ [zoneB] []) sqNps sqGraph rfl⟩

/-- C9: processing a request leaves the module-level state unchanged: the
    base graph (node set, edge set, every weight) and the coordinate index
    equal their pre-request values, because the handler mutates only the
    copy made by `G_base.copy()` at api_server.py:155 and never assigns the
    module globals; the response is computed purely from the read state. -/
theorem C9_base_graph_frame (geo : Geo) (st : ServerState) (req : PathRequest)
    (elapsed : ℚ) :
    (find_path_st geo st req elapsed).1.G_base = st.G_base ∧
    (find_path_st geo st req elapsed).1.G_base.nodes = st.G_base.nodes ∧
    (find_path_st geo st req elapsed).1.G_base.adj = st.G_base.adj ∧
    (∀ u v, weight (find_path_st geo st req elapsed).1.G_base u v = weight st.G_base u v) ∧
    (find_path_st geo st req elapsed).1.node_points_base = st.node_points_base ∧
    (find_path_st geo st req elapsed).2 =
      find_path geo st.G_base st.node_points_base req elapsed :=
  ⟨rfl, rfl, rfl, fun _ _ => rfl, rfl, rfl⟩

/-- The Python pair `(shortest_path_len, final_target_node)` seen as one
    optional best candidate: both variables update together, from
    `(inf, None)` to `(len, node)` (api_server.py:231-234). -/
def packScan (b : Option (Node × ℚ)) : ZoneScan :=
  { shortest_path_len := b.map (fun x => x.2), final_target_node := b.map (fun x => x.1) }

theorem scanZone_foldl_eq (geo : Geo) (nps : List (Node × Pt)) (g : Graph) (s : Node) :
    ∀ zones b, zones.foldl (scanZone geo nps g s) (packScan b) =
      packScan ((zoneCandidates geo nps g zones).foldl (bestStep g s) b) := by
  intro zones
  induction zones with
  | nil => intro b; rfl
  | cons z rest ih =>
    intro b
    rw [List.foldl_cons]
    by_cases hlen : z.coordinates.length < 3
    · have h1 : scanZone geo nps g s (packScan b) z = packScan b := by
        unfold scanZone
        rw [if_pos hlen]
      have h2 : zoneCandidates geo nps g (z :: rest) = zoneCandidates geo nps g rest := by
        unfold zoneCandidates
        rw [List.filterMap_cons, if_pos hlen]
      rw [h1, h2, ih]
    · cases hnear : get_nearest_node_api g (geo.centroid (polyMetric geo z)) nps with
      | none =>
        have h1 : scanZone geo nps g s (packScan b) z = packScan b := by
          unfold scanZone
          rw [if_neg hlen, hnear]
        have h2 : zoneCandidates geo nps g (z :: rest) = zoneCandidates geo nps g rest := by
          unfold zoneCandidates
          rw [List.filterMap_cons, if_neg hlen, hnear]
        rw [h1, h2, ih]
      | some t =>
        have h1 : scanZone geo nps g s (packScan b) z = packScan (bestStep g s b t) := by
          unfold scanZone bestStep
          rw [if_neg hlen, hnear]
          dsimp only
          cases hc : candCost g s t with
          | none => rfl
          | some len =>
            cases b with
            | none => rfl
            | some p =>
              dsimp only [packScan, Option.map]
              by_cases hlt : len < p.2
              · simp [packScan, if_pos hlt]
              · simp [packScan, if_neg hlt]
        have h2 : zoneCandidates geo nps g (z :: rest) = t :: zoneCandidates geo nps g rest := by
          unfold zoneCandidates
          rw [List.filterMap_cons, if_neg hlen, hnear]
        rw [h1, h2, List.foldl_cons, ih]

theorem bestStep_fold_none_iff (g : Graph) (s : Node) :
    ∀ (cands : List Node) (b : Option (Node × ℚ)), cands.foldl (bestStep g s) b = none ↔
      b = none ∧ ∀ t ∈ cands, candCost g s t = none := by
  intro cands
  induction cands with
  | nil => intro b; simp
  | cons t rest ih =>
    intro b
    rw [List.foldl_cons]
    cases hc : candCost g s t with
    | none =>
      have hb : bestStep g s b t = b := by
        unfold bestStep
        rw [hc]
      rw [hb, ih]
      constructor
      · rintro ⟨h1, h2⟩
        refine ⟨h1, ?_⟩
        intro t2 ht2
        rcases List.mem_cons.mp ht2 with rfl | h3
        · exact hc
        · exact h2 t2 h3
      · rintro ⟨h1, h2⟩
        exact ⟨h1, fun t2 ht2 => h2 t2 (List.mem_cons_of_mem _ ht2)⟩
    | some len =>
      have hb : ∃ q, bestStep g s b t = some q := by
        unfold bestStep
        rw [hc]
        dsimp only
        cases b with
        | none => exact ⟨_, rfl⟩
        | some p =>
          dsimp only
          by_cases hlt : len < p.2
          · rw [if_pos hlt]
            exact ⟨_, rfl⟩
          · rw [if_neg hlt]
            exact ⟨_, rfl⟩
      obtain ⟨q, hq⟩ := hb
      rw [hq, ih]
      constructor
      · rintro ⟨h1, _⟩
        cases h1
      · rintro ⟨_, h2⟩
        have := h2 t (List.mem_cons_self t rest)
        rw [hc] at this
        cases this

theorem bestStep_fold_min (g : Graph) (s : Node) :
    ∀ (cands : List Node) (b : Option (Node × ℚ)) (t : Node) (c : ℚ),
      cands.foldl (bestStep g s) b = some (t, c) →
      (∀ p, b = some p → c ≤ p.2) ∧
      ∀ t2 ∈ cands, ∀ c2, candCost g s t2 = some c2 → c ≤ c2 := by
  intro cands
  induction cands with
  | nil =>
    intro b t c h
    simp only [List.foldl_nil] at h
    refine ⟨?_, by simp⟩
    intro p hp
    rw [h] at hp
    exact le_of_eq (congrArg Prod.snd (Option.some.inj hp))
  | cons t0 rest ih =>
    intro b t c h
    rw [List.foldl_cons] at h
    obtain ⟨hacc, hrest⟩ := ih (bestStep g s b t0) t c h
    cases hc : candCost g s t0 with
    | none =>
      have hb : bestStep g s b t0 = b := by
        unfold bestStep
        rw [hc]
      rw [hb] at hacc
      refine ⟨hacc, ?_⟩
      intro t2 ht2 c2 hc2
      rcases List.mem_cons.mp ht2 with rfl | h3
      · rw [hc] at hc2
        cases hc2
      · exact hrest t2 h3 c2 hc2
    | some len =>
      cases b with
      | none =>
        have hb : bestStep g s none t0 = some (t0, len) := by
          unfold bestStep
          rw [hc]
        rw [hb] at hacc
        have hclen : c ≤ len := hacc _ rfl
        refine ⟨?_, ?_⟩
        · intro p hp
          simp at hp
        intro t2 ht2 c2 hc2
        rcases List.mem_cons.mp ht2 with rfl | h3
        · rw [hc] at hc2
          rw [← Option.some.inj hc2]
          exact hclen
        · exact hrest t2 h3 c2 hc2
      | some p =>
        by_cases hlt : len < p.2
        · have hb : bestStep g s (some p) t0 = some (t0, len) := by
            unfold bestStep
            rw [hc]
            show (if len < p.2 then some (t0, len) else some p) = some (t0, len)
            rw [if_pos hlt]
          rw [hb] at hacc
          have hclen : c ≤ len := hacc _ rfl
          refine ⟨?_, ?_⟩
          · intro p2 hp2
            rw [← Option.some.inj hp2]
            exact le_trans hclen (le_of_lt hlt)
          · intro t2 ht2 c2 hc2
            rcases List.mem_cons.mp ht2 with rfl | h3
            · rw [hc] at hc2
              rw [← Option.some.inj hc2]
              exact hclen
            · exact hrest t2 h3 c2 hc2
        · have hb : bestStep g s (some p) t0 = some p := by
            unfold bestStep
            rw [hc]
            show (if len < p.2 then some (t0, len) else some p) = some p
            rw [if_neg hlt]
          rw [hb] at hacc
          have hcp : c ≤ p.2 := hacc _ rfl
          refine ⟨?_, ?_⟩
          · intro p2 hp2
            rw [← Option.some.inj hp2]
            exact hcp
          · intro t2 ht2 c2 hc2
            rcases List.mem_cons.mp ht2 with rfl | h3
            · rw [hc] at hc2
              rw [← Option.some.inj hc2]
              exact le_trans hcp (not_lt.mp hlt)
            · exact hrest t2 h3 c2 hc2

theorem bestStep_fold_first (g : Graph) (s : Node) :
    ∀ (cands : List Node) (b : Option (Node × ℚ)) (t : Node) (c : ℚ),
      cands.foldl (bestStep g s) b = some (t, c) →
      b = some (t, c) ∨
      ∃ pre suf, cands = pre ++ t :: suf ∧ candCost g s t = some c ∧
        (∀ p, b = some p → c < p.2) ∧
        (∀ t2 ∈ pre, ∀ c2, candCost g s t2 = some c2 → c < c2) := by
  intro cands
  induction cands with
  | nil =>
    intro b t c h
    simp only [List.foldl_nil] at h
    exact Or.inl h
  | cons t0 rest ih =>
    intro b t c h
    rw [List.foldl_cons] at h
    rcases ih (bestStep g s b t0) t c h with h1 | h1
    · cases hc : candCost g s t0 with
      | none =>
        have hb : bestStep g s b t0 = b := by
          unfold bestStep
          rw [hc]
        rw [hb] at h1
        exact Or.inl h1
      | some len =>
        cases b with
        | none =>
          have hb : bestStep g s none t0 = some (t0, len) := by
            unfold bestStep
            rw [hc]
          rw [hb] at h1
          injection h1 with h2
          injection h2 with h2a h2b
          subst h2a
          subst h2b
          refine Or.inr ⟨[], rest, rfl, hc, ?_, by simp⟩
          intro p hp
          cases hp
        | some p =>
          by_cases hlt : len < p.2
          · have hb : bestStep g s (some p) t0 = some (t0, len) := by
              unfold bestStep
              rw [hc]
              show (if len < p.2 then some (t0, len) else some p) = some (t0, len)
              rw [if_pos hlt]
            rw [hb] at h1
            injection h1 with h2
            injection h2 with h2a h2b
            subst h2a
            subst h2b
            refine Or.inr ⟨[], rest, rfl, hc, ?_, by simp⟩
            intro p2 hp2
            rw [← Option.some.inj hp2]
            exact hlt
          · have hb : bestStep g s (some p) t0 = some p := by
              unfold bestStep
              rw [hc]
              show (if len < p.2 then some (t0, len) else some p) = some p
              rw [if_neg hlt]
            rw [hb] at h1
            exact Or.inl h1
    · obtain ⟨pre, suf, hsplit, hcost, haccb, hpre⟩ := h1
      cases hc : candCost g s t0 with
      | none =>
        have hb : bestStep g s b t0 = b := by
          unfold bestStep
          rw [hc]
        rw [hb] at haccb
        refine Or.inr ⟨t0 :: pre, suf, by rw [hsplit]; rfl, hcost, haccb, ?_⟩
        intro t2 ht2 c2 hc2
        rcases List.mem_cons.mp ht2 with rfl | h3
        · rw [hc] at hc2
          cases hc2
        · exact hpre t2 h3 c2 hc2
      | some len =>
        have hlt : c < len := by
          cases b with
          | none =>
            have hb : bestStep g s none t0 = some (t0, len) := by
              unfold bestStep
              rw [hc]
            rw [hb] at haccb
            exact haccb _ rfl
          | some p =>
            by_cases hplt : len < p.2
            · have hb : bestStep g s (some p) t0 = some (t0, len) := by
                unfold bestStep
                rw [hc]
                show (if len < p.2 then some (t0, len) else some p) = some (t0, len)
                rw [if_pos hplt]
              rw [hb] at haccb
              exact haccb _ rfl
            · have hb : bestStep g s (some p) t0 = some p := by
                unfold bestStep
                rw [hc]
                show (if len < p.2 then some (t0, len) else some p) = some p
                rw [if_neg hplt]
              rw [hb] at haccb
              exact lt_of_lt_of_le (haccb _ rfl) (not_lt.mp hplt)
        have haccb2 : ∀ p, b = some p → c < p.2 := by
          intro p hp
          subst hp
          by_cases hplt : len < p.2
          · have hb : bestStep g s (some p) t0 = some (t0, len) := by
              unfold bestStep
              rw [hc]
              show (if len < p.2 then some (t0, len) else some p) = some (t0, len)
              rw [if_pos hplt]
            exact lt_trans hlt hplt
          · have hb : bestStep g s (some p) t0 = some p := by
              unfold bestStep
              rw [hc]
              show (if len < p.2 then some (t0, len) else some p) = some p
              rw [if_neg hplt]
            rw [hb] at haccb
            exact haccb _ rfl
        refine Or.inr ⟨t0 :: pre, suf, by rw [hsplit]; rfl, hcost, haccb2, ?_⟩
        intro t2 ht2 c2 hc2
        rcases List.mem_cons.mp ht2 with rfl | h3
        · rw [hc] at hc2
          rw [← Option.some.inj hc2]
          exact hlt
        · exact hpre t2 h3 c2 hc2

/-- Unfolding equation for `find_path_inner` with the local bindings
    inlined (they are pure, so this is definitional). -/
theorem find_path_inner_eq (geo : Geo) (G_base : Graph) (nps : List (Node × Pt))
    (req : PathRequest) (elapsed : ℚ) :
    find_path_inner geo G_base nps req elapsed =
      match get_nearest_node_api (buildWorkingGraph geo req.polygons nps G_base)
          (geo.toMetric (req.start_point.longitude, req.start_point.latitude)) nps with
      | none =>
        Except.ok
          { path_found := false, path := none,
            message := startNotFoundMsg req.start_point.longitude req.start_point.latitude }
      | some start_node =>
        if req.safe_zones = [] then
          Except.error (400, "At least one safe zone must be provided.")
        else
          match (req.safe_zones.foldl
              (scanZone geo nps (buildWorkingGraph geo req.polygons nps G_base) start_node)
              ⟨none, none⟩).final_target_node with
          | none =>
            Except.ok
              { path_found := false, path := none,
                message := noPathMsg req.safe_zones.length elapsed }
          | some final_target_node =>
            match spPath (buildWorkingGraph geo req.polygons nps G_base) start_node
                final_target_node with
            | none =>
              Except.ok
                { path_found := false, path := none,
                  message := internalNoPathMsg start_node final_target_node }
            | some path_nodes =>
              Except.ok
                { path_found := true,
                  path := some (path_nodes.filterMap (fun n => (nps.lookup n).map geo.toWgs84)),
                  message := pathFoundMsg elapsed
                    (path_nodes.filterMap (fun n =>
                      (nps.lookup n).map geo.toWgs84)).length } := rfl

/-- If the scan pair reports a final target, the packed best candidate is a
    `some` with that target and some cost. -/
theorem packScan_target_some (b : Option (Node × ℚ)) (t : Node)
    (h : (packScan b).final_target_node = some t) : ∃ c, b = some (t, c) := by
  cases b with
  | none => cases h
  | some p =>
    have hp : p.1 = t := Option.some.inj h
    exact ⟨p.2, by rw [← hp]⟩

/-- C10: once the safe-zone scan has selected a winning target — so a finite
    cost from the start node to it was computed over the working graph — the
    final reconstruction over that same unchanged graph cannot fail:
    `nx.shortest_path` (modelled by `spPath`) has a path to return, so the
    `NetworkXNoPath` branch that would report `path_found = false` with the
    internal-inconsistency message (api_server.py:268-271) is unreachable,
    and the response carries `path_found = true` with a materialised path
    (api_server.py:219-234 and 248-266). -/
theorem C10_reconstruction_cannot_fail (geo : Geo) (G_base : Graph)
    (nps : List (Node × Pt)) (req : PathRequest) (elapsed : ℚ) (s t : Node)
    (hstart : get_nearest_node_api (buildWorkingGraph geo req.polygons nps G_base)
      (geo.toMetric (req.start_point.longitude, req.start_point.latitude)) nps = some s)
    (hwin : (req.safe_zones.foldl
        (scanZone geo nps (buildWorkingGraph geo req.polygons nps G_base) s)
        ⟨none, none⟩).final_target_node = some t) :
    (∃ p, spPath (buildWorkingGraph geo req.polygons nps G_base) s t = some p) ∧
    ∃ r, find_path geo G_base nps req elapsed = Except.ok r ∧
      r.path_found = true ∧ r.path.isSome = true := by
  have hs : s ∈ (buildWorkingGraph geo req.polygons nps G_base).nodes :=
    get_nearest_mem _ _ _ _ hstart
  have hzones : req.safe_zones ≠ [] := by
    intro h
    rw [h] at hwin
    cases hwin
  have hfold := scanZone_foldl_eq geo nps (buildWorkingGraph geo req.polygons nps G_base)
    s req.safe_zones none
  have hwin2 : (packScan ((zoneCandidates geo nps
      (buildWorkingGraph geo req.polygons nps G_base) req.safe_zones).foldl
      (bestStep (buildWorkingGraph geo req.polygons nps G_base) s) none)).final_target_node
      = some t := by
    rw [← hfold]
    exact hwin
  obtain ⟨c, hb⟩ := packScan_target_some _ t hwin2
  have hcost : candCost (buildWorkingGraph geo req.polygons nps G_base) s t = some c := by
    rcases bestStep_fold_first (buildWorkingGraph geo req.polygons nps G_base) s
      (zoneCandidates geo nps (buildWorkingGraph geo req.polygons nps G_base) req.safe_zones)
      none t c hb with h1 | h1
    · cases h1
    · exact h1.choose_spec.choose_spec.2.1
  obtain ⟨p, hp⟩ := candCost_some_spPath
    (buildWorkingGraph geo req.polygons nps G_base) s t c hs hcost
  refine ⟨⟨p, hp⟩, ?_⟩
  unfold find_path
  rw [find_path_inner_eq, hstart]
  dsimp only
  rw [if_neg hzones, hwin]
  dsimp only
  rw [hp]
  exact ⟨_, rfl, rfl, rfl⟩

/-- C1: for a request whose start node resolved to `s` and whose safe zones
    yield at least one candidate target node, the scan computes a
    shortest-path cost per candidate — zero, without running a search, when
    the candidate is `s` itself; unreachable candidates are skipped — the
    selected target minimises that cost with ties going to the
    first-encountered candidate in the fixed zone iteration order, the full
    node path is reconstructed once, for that winner, and the response has
    `path_found = false` exactly when no candidate is reachable
    (api_server.py:190-250 and 276-281). -/
theorem C1_nearest_target_selection (geo : Geo) (G_base : Graph) (nps : List (Node × Pt))
    (req : PathRequest) (elapsed : ℚ) (s : Node)
    (hstart : get_nearest_node_api (buildWorkingGraph geo req.polygons nps G_base)
      (geo.toMetric (req.start_point.longitude, req.start_point.latitude)) nps = some s)
    (hcands : zoneCandidates geo nps (buildWorkingGraph geo req.polygons nps G_base)
      req.safe_zones ≠ []) :
    ∃ r, find_path geo G_base nps req elapsed = Except.ok r ∧
      (∀ t ∈ zoneCandidates geo nps (buildWorkingGraph geo req.polygons nps G_base)
          req.safe_zones, s = t →
        candCost (buildWorkingGraph geo req.polygons nps G_base) s t = some 0) ∧
      (r.path_found = false ↔
        ∀ t ∈ zoneCandidates geo nps (buildWorkingGraph geo req.polygons nps G_base)
          req.safe_zones, s ≠ t ∧
            hasPath (buildWorkingGraph geo req.polygons nps G_base) s t = false) ∧
      (r.path_found = true →
        ∃ t c pre suf,
          zoneCandidates geo nps (buildWorkingGraph geo req.polygons nps G_base)
              req.safe_zones = pre ++ t :: suf ∧
          candCost (buildWorkingGraph geo req.polygons nps G_base) s t = some c ∧
          (∀ t2 ∈ pre, ∀ c2,
            candCost (buildWorkingGraph geo req.polygons nps G_base) s t2 = some c2 →
              c < c2) ∧
          (∀ t2 ∈ zoneCandidates geo nps (buildWorkingGraph geo req.polygons nps G_base)
              req.safe_zones, ∀ c2,
            candCost (buildWorkingGraph geo req.polygons nps G_base) s t2 = some c2 →
              c ≤ c2) ∧
          ∃ p, spPath (buildWorkingGraph geo req.polygons nps G_base) s t = some p ∧
            r.path = some (p.filterMap (fun n => (nps.lookup n).map geo.toWgs84))) := by
  have hs : s ∈ (buildWorkingGraph geo req.polygons nps G_base).nodes :=
    get_nearest_mem _ _ _ _ hstart
  have hzones : req.safe_zones ≠ [] := by
    intro h
    apply hcands
    rw [h]
    rfl
  have hzero : ∀ t ∈ zoneCandidates geo nps (buildWorkingGraph geo req.polygons nps G_base)
      req.safe_zones, s = t →
      candCost (buildWorkingGraph geo req.polygons nps G_base) s t = some 0 := by
    intro t _ hst
    unfold candCost
    rw [if_pos hst]
  have hfold := scanZone_foldl_eq geo nps (buildWorkingGraph geo req.polygons nps G_base)
    s req.safe_zones none
  cases hb : (zoneCandidates geo nps (buildWorkingGraph geo req.polygons nps G_base)
      req.safe_zones).foldl (bestStep (buildWorkingGraph geo req.polygons nps G_base) s)
      none with
  | none =>
    have hnone := (bestStep_fold_none_iff (buildWorkingGraph geo req.polygons nps G_base) s
      (zoneCandidates geo nps (buildWorkingGraph geo req.polygons nps G_base) req.safe_zones)
      none).mp hb
    have hscan : (req.safe_zones.foldl
        (scanZone geo nps (buildWorkingGraph geo req.polygons nps G_base) s)
        ⟨none, none⟩).final_target_node = none := by
      show (List.foldl (scanZone geo nps (buildWorkingGraph geo req.polygons nps G_base) s)
        (packScan none) req.safe_zones).final_target_node = none
      rw [hfold, hb]
      rfl
    refine ⟨PathResponse.mk false none (noPathMsg req.safe_zones.length elapsed),
      ?_, hzero, ?_, ?_⟩
    · unfold find_path
      rw [find_path_inner_eq, hstart]
      dsimp only
      rw [if_neg hzones, hscan]
    · constructor
      · intro _ t ht
        exact (candCost_none_iff (buildWorkingGraph geo req.polygons nps G_base) s t).mp
          (hnone.2 t ht)
      · intro _
        rfl
    · intro h
      simp at h
  | some q =>
    obtain ⟨t, c⟩ := q
    have hscan : (req.safe_zones.foldl
        (scanZone geo nps (buildWorkingGraph geo req.polygons nps G_base) s)
        ⟨none, none⟩).final_target_node = some t := by
      show (List.foldl (scanZone geo nps (buildWorkingGraph geo req.polygons nps G_base) s)
        (packScan none) req.safe_zones).final_target_node = some t
      rw [hfold, hb]
      rfl
    rcases bestStep_fold_first (buildWorkingGraph geo req.polygons nps G_base) s
      (zoneCandidates geo nps (buildWorkingGraph geo req.polygons nps G_base) req.safe_zones)
      none t c hb with h1 | h1
    · cases h1
    · obtain ⟨pre, suf, hsplit, hcost, _, hpre⟩ := h1
      have hmin := (bestStep_fold_min (buildWorkingGraph geo req.polygons nps G_base) s
        (zoneCandidates geo nps (buildWorkingGraph geo req.polygons nps G_base)
          req.safe_zones) none t c hb).2
      obtain ⟨p, hp⟩ := candCost_some_spPath
        (buildWorkingGraph geo req.polygons nps G_base) s t c hs hcost
      refine ⟨PathResponse.mk true
          (some (p.filterMap (fun n => (nps.lookup n).map geo.toWgs84)))
          (pathFoundMsg elapsed
            (p.filterMap (fun n => (nps.lookup n).map geo.toWgs84)).length),
        ?_, hzero, ?_, ?_⟩
      · unfold find_path
        rw [find_path_inner_eq, hstart]
        dsimp only
        rw [if_neg hzones, hscan]
        dsimp only
        rw [hp]
      · constructor
        · intro h
          simp at h
        · intro hall
          exfalso
          have ht : t ∈ zoneCandidates geo nps
              (buildWorkingGraph geo req.polygons nps G_base) req.safe_zones := by
            rw [hsplit]
            exact List.mem_append.mpr (Or.inr (List.mem_cons_self t suf))
          have h2 := (candCost_none_iff (buildWorkingGraph geo req.polygons nps G_base)
            s t).mpr (hall t ht)
          rw [hcost] at h2
          cases h2
      · intro _
        exact ⟨t, c, pre, suf, hsplit, hcost, hpre, hmin, p, hp, rfl⟩

/-- Concrete Mode B request on the square sample world: start at node A,
    one safe zone whose centroid resolves to node C, no exclusions. -/
def reqSample : PathRequest := ⟨⟨0, 0⟩, [⟨[(1, 1), (2, 2), (3, 3)]⟩], []⟩

/-- Working graph of `reqSample` (no exclusion polygons, hence the base
    square graph). -/
def Wsq : Graph := buildWorkingGraph geoSample reqSample.polygons sqNps sqGraph

unseal Rat.add Rat.sub Rat.mul in
/-- C10 witness: the no-failure theorem applied to the square graph with
    the winning target node C. -/
theorem C10_reconstruction_cannot_fail_witness :
    (get_nearest_node_api Wsq
        (geoSample.toMetric (reqSample.start_point.longitude, reqSample.start_point.latitude))
        sqNps = some 0 ∧
      (reqSample.safe_zones.foldl (scanZone geoSample sqNps Wsq 0)
        ⟨none, none⟩).final_target_node = some 2) ∧
    ((∃ p, spPath Wsq 0 2 = some p) ∧
      ∃ r, find_path geoSample sqGraph sqNps reqSample 0 = Except.ok r ∧
        r.path_found = true ∧ r.path.isSome = true) :=
  ⟨⟨by decide, by decide⟩,
    C10_reconstruction_cannot_fail geoSample sqGraph sqNps reqSample 0 0 2
      (by decide) (by decide)⟩

unseal Rat.add Rat.sub Rat.mul in
/-- C1 witness: the selection theorem applied to the square graph with one
    safe zone whose centroid resolves to node C. -/
theorem C1_nearest_target_selection_witness :
    (get_nearest_node_api Wsq
        (geoSample.toMetric (reqSample.start_point.longitude, reqSample.start_point.latitude))
        sqNps = some 0 ∧
      zoneCandidates geoSample sqNps Wsq reqSample.safe_zones ≠ []) ∧
    (∃ r, find_path geoSample sqGraph sqNps reqSample 0 = Except.ok r ∧
      (∀ t ∈ zoneCandidates geoSample sqNps Wsq reqSample.safe_zones, (0 : Node) = t →
        candCost Wsq 0 t = some 0) ∧
      (r.path_found = false ↔
        ∀ t ∈ zoneCandidates geoSample sqNps Wsq reqSample.safe_zones, (0 : Node) ≠ t ∧
          hasPath Wsq 0 t = false) ∧
      (r.path_found = true →
        ∃ t c pre suf,
          zoneCandidates geoSample sqNps Wsq reqSample.safe_zones = pre ++ t :: suf ∧
          candCost Wsq 0 t = some c ∧
          (∀ t2 ∈ pre, ∀ c2, candCost Wsq 0 t2 = some c2 → c < c2) ∧
          (∀ t2 ∈ zoneCandidates geoSample sqNps Wsq reqSample.safe_zones, ∀ c2,
            candCost Wsq 0 t2 = some c2 → c ≤ c2) ∧
          ∃ p, spPath Wsq 0 t = some p ∧
            r.path = some (p.filterMap (fun n => (sqNps.lookup n).map geoSample.toWgs84)))) :=
  ⟨⟨by decide, by decide⟩,
    C1_nearest_target_selection geoSample sqGraph sqNps reqSample 0 0
      (by decide) (by decide)⟩

unseal Rat.add Rat.sub Rat.mul in
/-- C3, behaviour of the code at the failing input (claim: an empty
    safe-zone list in Mode B is rejected as an HTTP 400 client error before
    any graph work).  In the code the check sits after the graph copy, the
    exclusion pruning and the start-node resolution (api_server.py:187), and
    the `HTTPException(400)` it raises inside the `try:` block is caught by
    the blanket `except Exception` handler and re-raised as HTTP 500
    (api_server.py:283-287).  Moreover, when no start node resolves — which
    is only known after the graph work — the empty-zones request is not
    rejected at all: it receives a normal `path_found = false` response. -/
theorem C3_empty_safe_zones_code_behavior :
    (find_path geoSample sqGraph sqNps (PathRequest.mk ⟨0, 0⟩ [] []) 0 =
      Except.error (500, "Internal server error: " ++
        "At least one safe zone must be provided.")) ∧
    (∃ r, find_path geoSample (Graph.mk [] []) [] (PathRequest.mk ⟨0, 0⟩ [] []) 0 =
      Except.ok r ∧ r.path_found = false) :=
  ⟨rfl, ⟨_, rfl, rfl⟩⟩

/-- Projection of an endpoint outcome onto the `message` field, used to
    compare whole responses. -/
def respMsg : Except (ℕ × String) PathResponse → Option String
  | .ok r => some r.message
  | .error _ => none

unseal Rat.add Rat.sub Rat.mul in
/-- C6 counterexample: two runs of the identical request against the
    unchanged base graph with different wall-clock figures (the
    `time.perf_counter()` difference interpolated at api_server.py:262-263)
    produce different message strings, so the responses are not identical as
    the claim states. -/
theorem C6_determinism_counterexample :
    respMsg (find_path geoSample sqGraph sqNps reqSample 0) ≠
      respMsg (find_path geoSample sqGraph sqNps reqSample 1) := by
  decide

/-- C6 amended: identical requests against an unchanged base graph yield
    identical outcomes up to the wall-clock figure embedded in the message:
    the error component and, on success, `path_found` and the path
    coordinate list agree for any two timings (api_server.py:262-266 and
    276-281); only the rendered elapsed time may differ. -/
theorem C6_determinism_core (geo : Geo) (G_base : Graph) (nps : List (Node × Pt))
    (req : PathRequest) (t1 t2 : ℚ) :
    (find_path geo G_base nps req t1).map (fun r => (r.path_found, r.path)) =
      (find_path geo G_base nps req t2).map (fun r => (r.path_found, r.path)) := by
  unfold find_path
  rw [find_path_inner_eq geo G_base nps req t1, find_path_inner_eq geo G_base nps req t2]
  cases hn : get_nearest_node_api (buildWorkingGraph geo req.polygons nps G_base)
      (geo.toMetric (req.start_point.longitude, req.start_point.latitude)) nps with
  | none => rfl
  | some s =>
    dsimp only
    by_cases hz : req.safe_zones = []
    · rw [if_pos hz, if_pos hz]
    · rw [if_neg hz, if_neg hz]
      cases hscan : (req.safe_zones.foldl
          (scanZone geo nps (buildWorkingGraph geo req.polygons nps G_base) s)
          ⟨none, none⟩).final_target_node with
      | none => rfl
      | some t =>
        dsimp only
        cases hp : spPath (buildWorkingGraph geo req.polygons nps G_base) s t with
        | none => rfl
        | some p => rfl

theorem nodes_to_remove_congr (geo : Geo) (polys1 polys2 : List PolygonInput)
    (h : validPolys polys1 = validPolys polys2) (nps : List (Node × Pt)) (g : Graph) :
    nodes_to_remove geo polys1 nps g = nodes_to_remove geo polys2 nps g := by
  unfold nodes_to_remove
  rw [h]

theorem buildWorkingGraph_degenerate (geo : Geo) (l1 l2 : List PolygonInput)
    (d : PolygonInput) (hd : d.coordinates.length < 3) (nps : List (Node × Pt))
    (g : Graph) :
    buildWorkingGraph geo (l1 ++ d :: l2) nps g = buildWorkingGraph geo (l1 ++ l2) nps g := by
  have hvp : validPolys (l1 ++ d :: l2) = validPolys (l1 ++ l2) := by
    unfold validPolys
    rw [List.filter_append, List.filter_append, List.filter_cons,
      if_neg (by simpa using Nat.not_le.mpr hd)]
  have hnr := nodes_to_remove_congr geo _ _ hvp nps g
  unfold buildWorkingGraph
  by_cases h2 : l1 ++ l2 = []
  · rw [if_neg (by simp : l1 ++ d :: l2 ≠ []), if_pos h2]
    show (if nodes_to_remove geo (l1 ++ d :: l2) nps g = [] then Graph.copy g
      else removeNodesFrom (Graph.copy g) (nodes_to_remove geo (l1 ++ d :: l2) nps g)) =
      Graph.copy g
    rw [hnr, h2, nodes_to_remove_nil]
    simp
  · rw [if_neg (by simp : l1 ++ d :: l2 ≠ []), if_neg h2]
    show (if nodes_to_remove geo (l1 ++ d :: l2) nps g = [] then Graph.copy g
      else removeNodesFrom (Graph.copy g) (nodes_to_remove geo (l1 ++ d :: l2) nps g)) =
      (if nodes_to_remove geo (l1 ++ l2) nps g = [] then Graph.copy g
      else removeNodesFrom (Graph.copy g) (nodes_to_remove geo (l1 ++ l2) nps g))
    rw [hnr]

theorem scan_foldl_degenerate (geo : Geo) (nps : List (Node × Pt)) (g : Graph) (s : Node)
    (zs1 zs2 : List PolygonInput) (d : PolygonInput) (hd : d.coordinates.length < 3)
    (acc : ZoneScan) :
    (zs1 ++ d :: zs2).foldl (scanZone geo nps g s) acc =
      (zs1 ++ zs2).foldl (scanZone geo nps g s) acc := by
  rw [List.foldl_append, List.foldl_append, List.foldl_cons]
  have h : scanZone geo nps g s (zs1.foldl (scanZone geo nps g s) acc) d =
      zs1.foldl (scanZone geo nps g s) acc := by
    unfold scanZone
    rw [if_pos hd]
  rw [h]

/-- C8 amended: a polygon with fewer than 3 vertices is skipped and never
    raises an error at the boundary.  A degenerate exclusion polygon leaves
    the response exactly identical to omitting it.  A degenerate safe zone
    leaves `path_found` and the path identical to omitting it as long as at
    least one other safe zone remains — the zone count interpolated into the
    no-path message (api_server.py:279) still counts the skipped zone — and
    when it is the only safe zone the request still completes as a normal
    response while its omission would make the safe-zone list empty and be
    rejected (api_server.py:161-164, 187-188, 196-198). -/
theorem C8_degenerate_polygon_skipped (geo : Geo) (G_base : Graph)
    (nps : List (Node × Pt)) (elapsed : ℚ) (d : PolygonInput)
    (hd : d.coordinates.length < 3) :
    (∀ sp zs l1 l2,
      find_path geo G_base nps (PathRequest.mk sp zs (l1 ++ d :: l2)) elapsed =
        find_path geo G_base nps (PathRequest.mk sp zs (l1 ++ l2)) elapsed) ∧
    (∀ sp polys zs1 zs2, zs1 ++ zs2 ≠ [] →
      (find_path geo G_base nps (PathRequest.mk sp (zs1 ++ d :: zs2) polys) elapsed).map
          (fun r => (r.path_found, r.path)) =
        (find_path geo G_base nps (PathRequest.mk sp (zs1 ++ zs2) polys) elapsed).map
          (fun r => (r.path_found, r.path))) ∧
    (∀ req, d ∈ req.safe_zones →
      ∃ r, find_path geo G_base nps req elapsed = Except.ok r) := by
  refine ⟨?_, ?_, ?_⟩
  · intro sp zs l1 l2
    unfold find_path
    rw [find_path_inner_eq, find_path_inner_eq]
    dsimp only
    rw [buildWorkingGraph_degenerate geo l1 l2 d hd nps G_base]
  · intro sp polys zs1 zs2 hne
    unfold find_path
    rw [find_path_inner_eq, find_path_inner_eq]
    dsimp only
    have hz1 : zs1 ++ d :: zs2 ≠ [] := by simp
    cases hn : get_nearest_node_api (buildWorkingGraph geo polys nps G_base)
        (geo.toMetric (sp.longitude, sp.latitude)) nps with
    | none => rfl
    | some s =>
      dsimp only
      rw [if_neg hz1, if_neg hne,
        scan_foldl_degenerate geo nps (buildWorkingGraph geo polys nps G_base) s
          zs1 zs2 d hd]
      cases hscan : ((zs1 ++ zs2).foldl
          (scanZone geo nps (buildWorkingGraph geo polys nps G_base) s)
          ⟨none, none⟩).final_target_node with
      | none => rfl
      | some t => rfl
  · intro req hmem
    have hz : req.safe_zones ≠ [] := by
      intro h
      rw [h] at hmem
      cases hmem
    unfold find_path
    rw [find_path_inner_eq]
    cases hn : get_nearest_node_api (buildWorkingGraph geo req.polygons nps G_base)
        (geo.toMetric (req.start_point.longitude, req.start_point.latitude)) nps with
    | none => exact ⟨_, rfl⟩
    | some s =>
      dsimp only
      rw [if_neg hz]
      cases hscan : (req.safe_zones.foldl
          (scanZone geo nps (buildWorkingGraph geo req.polygons nps G_base) s)
          ⟨none, none⟩).final_target_node with
      | none => exact ⟨_, rfl⟩
      | some t =>
        dsimp only
        cases hp : spPath (buildWorkingGraph geo req.polygons nps G_base) s t with
        | none => exact ⟨_, rfl⟩
        | some p => exact ⟨_, rfl⟩

unseal Rat.add Rat.sub Rat.mul in
/-- C8 counterexample: a request whose only safe zone is a 2-vertex
    "polygon" completes with a normal `path_found = false` response, while
    the same request with that polygon omitted has an empty safe-zone list
    and is rejected with an HTTP error — the two responses are not
    identical, refuting the claim as stated. -/
theorem C8_degenerate_sole_zone_counterexample :
    (∃ r, find_path geoSample sqGraph sqNps
        (PathRequest.mk ⟨0, 0⟩ [⟨[(1, 1), (2, 2)]⟩] []) 0 = Except.ok r ∧
      r.path_found = false) ∧
    ∀ r, find_path geoSample sqGraph sqNps (PathRequest.mk ⟨0, 0⟩ [] []) 0 ≠
      Except.ok r := by
  constructor
  · exact ⟨_, rfl, rfl⟩
  · intro r h
    rw [show find_path geoSample sqGraph sqNps (PathRequest.mk ⟨0, 0⟩ [] []) 0 =
      Except.error (500, "Internal server error: " ++
        "At least one safe zone must be provided.") from rfl] at h
    cases h

unseal Rat.add Rat.sub Rat.mul in
/-- C8 witness: the amended theorem applied to a concrete 2-vertex polygon
    on the square sample world, with the skip equalities evaluated on a
    concrete request. -/
theorem C8_degenerate_polygon_skipped_witness :
    ((⟨[(1, 1), (2, 2)]⟩ : PolygonInput).coordinates.length < 3) ∧
    ((∀ sp zs l1 l2,
      find_path geoSample sqGraph sqNps
          (PathRequest.mk sp zs (l1 ++ (⟨[(1, 1), (2, 2)]⟩ : PolygonInput) :: l2)) 0 =
        find_path geoSample sqGraph sqNps (PathRequest.mk sp zs (l1 ++ l2)) 0) ∧
    (∀ sp polys zs1 zs2, zs1 ++ zs2 ≠ [] →
      (find_path geoSample sqGraph sqNps
          (PathRequest.mk sp (zs1 ++ (⟨[(1, 1), (2, 2)]⟩ : PolygonInput) :: zs2) polys) 0).map
          (fun r => (r.path_found, r.path)) =
        (find_path geoSample sqGraph sqNps (PathRequest.mk sp (zs1 ++ zs2) polys) 0).map
          (fun r => (r.path_found, r.path))) ∧
    (∀ req, (⟨[(1, 1), (2, 2)]⟩ : PolygonInput) ∈ req.safe_zones →
      ∃ r, find_path geoSample sqGraph sqNps req 0 = Except.ok r)) :=
  ⟨by decide,
    C8_degenerate_polygon_skipped geoSample sqGraph sqNps 0 ⟨[(1, 1), (2, 2)]⟩ (by decide)⟩

end PathAPI
